/-
A verification development for the playlist-generation engine of the
plex-real-tv repository (`src/rtv/playlist.py`, with the configuration
model from `src/rtv/config.py` and catalog helpers from
`src/rtv/plex_client.py`).

The Python code is shallowly embedded:
* plexapi media objects are reduced to the attributes the engine reads
  (an optional duration in milliseconds, season/episode indices, a
  category name that the source derives from a clip's parent folder);
* the Plex server is abstracted as a `Catalog` of pure lookup functions,
  mirroring `plex_client.get_show` / `get_episode` /
  `get_next_season_number` / `get_commercials`;
* calls to `random.choice` / `random.choices` / `random.uniform` are
  modelled nondeterministically by oracle streams (`choice : Nat → Nat`
  selects a position in the candidate list, `targets : Nat → Rat` yields
  the uniform draw); universally quantified theorems therefore cover
  every possible random outcome;
* the two `while` loops are embedded as structural recursions on an
  explicit fuel equal to their termination measure; equation theorems
  below (`genLoop_eq`, `blockLoopRun_eq`) show each equals the
  one-step unfolding of the corresponding `while` loop, so the fuel is
  an implementation detail, not a semantic one;
* in-place mutation (show cursors written back onto the playlist,
  premiere-year backfill onto the global config) is modelled by
  returning the updated records.
-/
import Mathlib

set_option linter.unusedVariables false
set_option maxRecDepth 2000

namespace RTV

/-! ### Data model (from `src/rtv/config.py`) -/

/-- `BlockDuration`: min/max duration for commercial blocks in seconds
(pydantic: both `ge=1`, and `min <= max` checked by a validator). -/
structure BlockDuration where
  min : Int
  max : Int
  deriving Repr, DecidableEq

/-- The pydantic validation constraints on `BlockDuration`. -/
def BlockDuration.Valid (b : BlockDuration) : Prop :=
  1 ≤ b.min ∧ 1 ≤ b.max ∧ b.min ≤ b.max

/-- `GlobalShow`: a show known to the system (global pool). -/
structure GlobalShow where
  name : String
  library : String
  year : Option Int
  enabled : Bool
  deriving Repr, DecidableEq

/-- `PlaylistShow`: a show's state within a specific playlist
(its persisted season/episode cursor). -/
structure PlaylistShow where
  name : String
  current_season : Int
  current_episode : Int
  deriving Repr, DecidableEq

/-- `BreakConfig`: per-playlist commercial break settings. -/
structure BreakConfig where
  enabled : Bool
  style : String
  frequency : Nat
  min_gap : Nat
  block_duration : BlockDuration
  deriving Repr, DecidableEq

/-- The pydantic validation constraints on `BreakConfig`
(`frequency >= 1`, `min_gap >= 1`, style in the allowed set). -/
def BreakConfig.Valid (b : BreakConfig) : Prop :=
  (b.style = "single" ∨ b.style = "block" ∨ b.style = "disabled") ∧
    1 ≤ b.frequency ∧ 1 ≤ b.min_gap ∧ b.block_duration.Valid

/-- `PlaylistDefinition`: a named playlist with its own settings. -/
structure PlaylistDefinition where
  name : String
  shows : List PlaylistShow
  breaks : BreakConfig
  episodes_per_generation : Nat
  sort_by : String
  deriving Repr, DecidableEq

/-- `CommercialCategory`: a category of commercials with a selection
weight (pydantic: `weight > 0`). Search terms are not read by the
engine and are omitted. -/
structure CommercialCategory where
  name : String
  weight : Rat
  deriving Repr, DecidableEq

/-- `CommercialConfig`: commercial library settings (the fields the
engine reads: library name, default block duration, categories). -/
structure CommercialConfig where
  library_name : String
  block_duration : BlockDuration
  categories : List CommercialCategory
  deriving Repr, DecidableEq

/-- `RTVConfig`: the slice of the root configuration the engine reads:
the global show pool and the commercial settings. -/
structure RTVConfig where
  shows : List GlobalShow
  commercials : CommercialConfig
  deriving Repr, DecidableEq

/-- `RTVConfig.get_global_show`: look up a global show by name
(case-insensitive, first match). -/
def RTVConfig.get_global_show (config : RTVConfig) (name : String) : Option GlobalShow :=
  config.shows.find? (fun s => s.name.toLower = name.toLower)

/-! ### Media items and the catalog (from `plexapi` via `src/rtv/plex_client.py`) -/

/-- A commercial clip as the engine sees it: the `duration` attribute
(milliseconds, possibly absent) and the category name. The source
derives the category from the clip's file path's parent-folder name
(`_get_clip_category`); the embedding carries that derived name
directly on the clip. -/
structure MediaItem where
  duration : Option Int
  category : String
  deriving Repr, DecidableEq

/-- An episode as the engine sees it: its `index` (episode number
within the season) and its `duration` attribute (milliseconds). -/
structure PlexEpisode where
  index : Int
  duration : Option Int
  deriving Repr, DecidableEq

/-- A season: its `index` and its episodes. -/
structure PlexSeason where
  index : Int
  episodes : List PlexEpisode
  deriving Repr, DecidableEq

/-- A show in the catalog: its `year` attribute and its seasons. -/
structure PlexShow where
  year : Option Int
  seasons : List PlexSeason
  deriving Repr, DecidableEq

instance : Inhabited PlexShow := ⟨⟨none, []⟩⟩

/-- The catalog collaborator: pure lookups standing for
`plex_client.get_show` (with `none` for a raised `NotFound`) and
`plex_client.get_commercials` (by library name; the source returns `[]`
when the library is missing). -/
structure Catalog where
  findShow : String → String → Option PlexShow
  listCommercials : String → List MediaItem

/-- `plex_client.get_episode`: get a specific episode by season and
episode number; `none` if the season does not exist (plexapi raises
`NotFound`) or no episode in it has the requested index. -/
def getEpisode (sh : PlexShow) (seasonNum episodeNum : Int) : Option PlexEpisode :=
  match sh.seasons.find? (fun s => s.index = seasonNum) with
  | none => none
  | some season => season.episodes.find? (fun ep => ep.index = episodeNum)

/-- `plex_client.get_next_season_number`: the next season number after
`currentSeason` (the source sorts the positive season indices and
returns the first one greater than `currentSeason`). -/
def getNextSeasonNumber (sh : PlexShow) (currentSeason : Int) : Option Int :=
  let seasonNumbers :=
    @List.insertionSort Int (fun a b => a ≤ b) (fun a b => Int.decLe a b)
      (sh.seasons.filterMap (fun s => if 0 < s.index then some s.index else none))
  seasonNumbers.find? (fun sn => currentSeason < sn)

/-- `_get_duration_secs`, applied to the item's `duration` attribute:
duration in seconds, `0` if the attribute is absent or falsy (`0`). -/
def getDurationSecs (duration : Option Int) : Rat :=
  match duration with
  | some d => if d ≠ 0 then (d : Rat) / 1000 else 0
  | none => 0

/-! ### `pick_single_commercial` -/

/-- Appending to a `collections.deque` with `maxlen`: push on the
right, evicting from the left once over capacity. -/
def dequeAppend (hist : List Nat) (idx : Nat) (maxlen : Nat) : List Nat :=
  let h := hist ++ [idx]
  if maxlen < h.length then h.drop (h.length - maxlen) else h

/-- The index chosen by `pick_single_commercial` on a pool of
`poolSize` clips: a uniformly random member of the eligible indices
(those not in the recent history), or the oldest history entry when
every index was used recently. The random draw is modelled by the
`choice` oracle selecting a position in the eligible list. -/
def pickIndex (poolSize : Nat) (hist : List Nat) (choice : Nat) : Nat :=
  let eligible := (List.range poolSize).filter (fun i => decide (i ∉ hist))
  match eligible with
  | [] => hist.headD 0
  | e :: es => (e :: es).getD (choice % (e :: es).length) 0

/-- `pick_single_commercial`: pick a single random commercial, avoiding
recent repeats; returns `((clip?, duration_secs), updated_history)`.
The source's `min_gap` parameter is not read in the function body; the
no-repeat window is enforced by the history deque's own `maxlen`,
which `generate_playlist` sets to `breaks.min_gap` — the same value it
passes as `min_gap` — so the embedding uses the parameter as the deque
capacity on append. -/
def pickSingleCommercial (commercials : List MediaItem) (hist : List Nat)
    (min_gap : Nat) (choice : Nat) : (Option MediaItem × Rat) × List Nat :=
  match commercials with
  | [] => ((none, 0), hist)
  | _ :: _ =>
    let idx := pickIndex commercials.length hist choice
    let hist' := dequeAppend hist idx min_gap
    let clip := commercials.getD idx ⟨none, ""⟩
    let duration := getDurationSecs clip.duration
    let duration := if duration ≤ 0 then 30 else duration
    ((some clip, duration), hist')

/-- A run of sequential `pick_single_commercial` calls on a fixed pool,
recording the pool index picked at each step (one oracle value per
call). -/
def pickIndexRun (poolSize min_gap : Nat) : List Nat → List Nat → List Nat
  | _, [] => []
  | hist, c :: cs =>
    let idx := pickIndex poolSize hist c
    idx :: pickIndexRun poolSize min_gap (dequeAppend hist idx min_gap) cs

/-! ### Commercial block building -/

/-- The per-clip duration the block loop accumulates: the clip's own
duration in seconds, with the 30-second fallback when that is not
positive. -/
def adjustedDuration (clip : MediaItem) : Rat :=
  let d := getDurationSecs clip.duration
  if d ≤ 0 then 30 else d

/-- The category-name-to-weight dictionary built from
`commercial_config.categories` (keys lower-cased; category names are
unique after lower-casing by a config validator, so first-match lookup
agrees with the Python dict). -/
def categoryWeights (ccfg : CommercialConfig) : List (String × Rat) :=
  ccfg.categories.map (fun c => (c.name.toLower, c.weight))

/-- The weighted pool: each clip paired with its category's weight
(default `1.0` for an unknown category). -/
def weightedPool (commercials : List MediaItem) (ccfg : CommercialConfig) :
    List (MediaItem × Rat) :=
  commercials.map (fun clip =>
    (clip, (((categoryWeights ccfg).lookup clip.category.toLower).getD 1)))

/-- Fuel needed by the block loop: each iteration adds at least
`1/1000` of a second, so `⌈(target − dur) · 1000⌉` iterations always
reach the target. -/
def blockLoopMeasure (target dur : Rat) : Nat :=
  (Int.ceil ((target - dur) * 1000)).toNat

/-- The body of the block-building `while` loop, as a structural
recursion on fuel. The weighted draw of `random.choices` is modelled by
the `choice` oracle selecting a pool position (`weights` kept for the
record; the oracle ranges over every position, a superset of the
positive-weight support, so universally quantified theorems cover the
real sampler). `k` is the oracle cursor. -/
def blockLoopFuel (clips : List MediaItem) (weights : List Rat) (target : Rat)
    (choice : Nat → Nat) : Nat → Nat → List MediaItem → Rat →
    List MediaItem × Rat × Nat
  | 0, k, block, dur => (block, dur, k)
  | fuel + 1, k, block, dur =>
    if dur < target ∧ clips ≠ [] then
      let chosen := clips.getD (choice k % clips.length) ⟨none, ""⟩
      blockLoopFuel clips weights target choice fuel (k + 1)
        (block ++ [chosen]) (dur + adjustedDuration chosen)
    else (block, dur, k)

/-- The block-building `while` loop
(`while block_duration < target_duration and clips:`), started with
fuel equal to its termination measure; `blockLoopRun_eq` below shows
this equals the loop's one-step unfolding. -/
def blockLoopRun (clips : List MediaItem) (weights : List Rat) (target : Rat)
    (choice : Nat → Nat) (k : Nat) (block : List MediaItem) (dur : Rat) :
    List MediaItem × Rat × Nat :=
  blockLoopFuel clips weights target choice (blockLoopMeasure target dur) k block dur

/-- `build_commercial_block`: build a commercial block of random clips
meeting the target duration, using the global
`commercial_config.block_duration` range. `target` models the
`random.uniform(min, max)` draw; theorems about it carry the
corresponding range hypothesis. Returns
`((clips, total_duration), oracle_cursor)`. -/
def buildCommercialBlock (commercials : List MediaItem) (ccfg : CommercialConfig)
    (target : Rat) (choice : Nat → Nat) (k : Nat) :
    (List MediaItem × Rat) × Nat :=
  match commercials with
  | [] => (([], 0), k)
  | _ :: _ =>
    match h : weightedPool commercials ccfg with
    | [] => (([], 0), k)
    | p :: ps =>
      let clips := (p :: ps).map Prod.fst
      let weights := (p :: ps).map Prod.snd
      let r := blockLoopRun clips weights target choice k [] 0
      ((r.1, r.2.1), r.2.2)

/-- `build_commercial_block_for_playlist`: identical loop, but the
target range comes from the playlist's `break_config.block_duration`
(so the `target` parameter is constrained by that range in theorems). -/
def buildCommercialBlockForPlaylist (commercials : List MediaItem)
    (breakCfg : BreakConfig) (ccfg : CommercialConfig)
    (target : Rat) (choice : Nat → Nat) (k : Nat) :
    (List MediaItem × Rat) × Nat :=
  match commercials with
  | [] => (([], 0), k)
  | _ :: _ =>
    match h : weightedPool commercials ccfg with
    | [] => (([], 0), k)
    | p :: ps =>
      let clips := (p :: ps).map Prod.fst
      let weights := (p :: ps).map Prod.snd
      let r := blockLoopRun clips weights target choice k [] 0
      ((r.1, r.2.1), r.2.2)

/-! ### Show state, cursor advancement and sorting -/

/-- `ShowState`: mutable state tracking for a show during generation.
`psIdx` is the position of the backing `PlaylistShow` record in the
playlist's show list (standing for the Python object reference through
which final cursor positions are written back). -/
structure ShowState where
  name : String
  library : String
  year : Option Int
  psIdx : Nat
  plexShow : PlexShow
  current_season : Int
  current_episode : Int
  exhausted : Bool
  episodes_added : Nat
  deriving Repr, DecidableEq

instance : Inhabited ShowState :=
  ⟨{ name := "", library := "", year := none, psIdx := 0, plexShow := default,
     current_season := 1, current_episode := 1, exhausted := false,
     episodes_added := 0 }⟩

/-- `_get_next_episode`: the episode for the current cursor, advancing
through seasons as needed. Returns the episode (or `none` when the
show is exhausted) together with the cursor value after the call — the
source mutates `state.current_season` / `state.current_episode` to
`(next_season, 1)` even when the new season's first episode is then
not found. -/
def getNextEpisode (sh : PlexShow) (season episode : Int) :
    Option PlexEpisode × Int × Int :=
  match getEpisode sh season episode with
  | some ep => (some ep, season, episode)
  | none =>
    match getNextSeasonNumber sh season with
    | none => (none, season, episode)
    | some nextSeason =>
      match getEpisode sh nextSeason 1 with
      | some ep => (some ep, nextSeason, 1)
      | none => (none, nextSeason, 1)

/-- The per-show cursor trace: iterate `_get_next_episode` followed by
the caller's `state.current_episode += 1`, recording the (season,
episode) position of each episode scheduled, and stopping at
exhaustion. Returns the scheduled positions and the final cursor. -/
def cursorRun (sh : PlexShow) (season episode : Int) :
    Nat → List (Int × Int) × (Int × Int)
  | 0 => ([], (season, episode))
  | n + 1 =>
    match getNextEpisode sh season episode with
    | (some _, s', e') =>
      let r := cursorRun sh s' (e' + 1) n
      ((s', e') :: r.1, r.2)
    | (none, s', e') => ([], (s', e'))

/-- Strict lexicographic order on (season, episode) positions. -/
def posLt (a b : Int × Int) : Prop :=
  a.1 < b.1 ∨ (a.1 = b.1 ∧ a.2 < b.2)

instance : DecidableRel posLt := fun a b =>
  inferInstanceAs (Decidable (a.1 < b.1 ∨ (a.1 = b.1 ∧ a.2 < b.2)))

/-- The sort key of `sort_by = "premiere_year"`: the Python tuple
`(s.year is None, s.year or 0)`, compared lexicographically (ascending
year, unknown years last). -/
def yearKey (s : ShowState) : Nat ×ₗ Int :=
  toLex ((if s.year = none then 1 else 0), (s.year.getD 0))

/-- The sort key of `sort_by = "premiere_year_desc"`:
`(s.year is None, -(s.year or 0))`. -/
def yearKeyDesc (s : ShowState) : Nat ×ₗ Int :=
  toLex ((if s.year = none then 1 else 0), -(s.year.getD 0))

/-- The sort key of `sort_by = "alphabetical"`: `s.name.lower()`. -/
def alphaKey (s : ShowState) : String :=
  s.name.toLower

/-- The total preorder induced on show states by a sort key. -/
def keyRel {κ : Type} [LinearOrder κ] (key : ShowState → κ) :
    ShowState → ShowState → Prop :=
  fun a b => key a ≤ key b

instance {κ : Type} [LinearOrder κ] (key : ShowState → κ) :
    DecidableRel (keyRel key) :=
  fun a b => inferInstanceAs (Decidable (key a ≤ key b))

/-- Stable sort by a key function, standing for Python's
`list.sort(key=...)` (a stable sort by `key a ≤ key b`; stable sorts
for a fixed total preorder agree on all inputs, so insertion sort is a
faithful model of Timsort here — stability is proved below). -/
def sortByKey {κ : Type} [LinearOrder κ] (key : ShowState → κ)
    (l : List ShowState) : List ShowState :=
  l.insertionSort (keyRel key)

/-- The pre-round-robin sort of `generate_playlist` (the
`if sort_by == ...` chain; `"config_order"` and anything else: no
reordering). -/
def sortStates (sort_by : String) (l : List ShowState) : List ShowState :=
  if sort_by = "premiere_year" then sortByKey yearKey l
  else if sort_by = "premiere_year_desc" then sortByKey yearKeyDesc l
  else if sort_by = "alphabetical" then sortByKey alphaKey l
  else l

/-! ### The generation loop -/

/-- A scheduled playlist item: an episode (tagged with the show name
and season that produced it, recoverable in the source from the plexapi
`Episode` object itself) or a commercial clip. -/
inductive ScheduledItem where
  | episode (showName : String) (season : Int) (ep : PlexEpisode)
  | commercial (clip : MediaItem)
  deriving Repr, DecidableEq

/-- Whether a scheduled item is a commercial clip. -/
def ScheduledItem.isCommercial : ScheduledItem → Bool
  | .episode _ _ _ => false
  | .commercial _ => true

/-- The mutable state of `generate_playlist`'s `while` loop. `k` is
the oracle cursor (how many random draws have happened). -/
structure GenState where
  states : List ShowState
  items : List ScheduledItem
  episodesAdded : Nat
  blockCount : Nat
  commercialSecs : Rat
  totalSecs : Rat
  dropped : List String
  sinceBreak : Nat
  rotation : Nat
  history : List Nat
  k : Nat
  deriving Repr, DecidableEq

/-- Constant inputs of the generation loop. -/
structure GenCtx where
  commercials : List MediaItem
  breaks : BreakConfig
  commercialCfg : CommercialConfig
  epCount : Nat
  choice : Nat → Nat
  targets : Nat → Rat

/-- Positions (in the full state list) of the still-active shows:
`active_states = [s for s in show_states if not s.exhausted]`,
represented by index so that the selected show can be written back. -/
def activeIdx (states : List ShowState) : List Nat :=
  (List.range states.length).filter (fun i => !(states.getD i default).exhausted)

/-- Number of still-active shows. -/
def countActive (states : List ShowState) : Nat :=
  (states.filter (fun s => !s.exhausted)).length

/-- Appending a picked clip (`if clip is not None:`): the loop state
after the single-style insertion body. -/
def addClip (st : GenState) (c : Option MediaItem) (d : Rat) : GenState :=
  match c with
  | some clip =>
    { st with
      items := st.items ++ [.commercial clip],
      blockCount := st.blockCount + 1,
      commercialSecs := st.commercialSecs + d,
      totalSecs := st.totalSecs + d }
  | none => st

/-- The `breaks.style == "single"` branch: pick one commercial (always
consuming a random draw and updating the history) and append it if one
was returned. -/
def singleBreak (ctx : GenCtx) (st : GenState) : GenState :=
  let r := pickSingleCommercial ctx.commercials st.history ctx.breaks.min_gap
    (ctx.choice st.k)
  addClip { st with history := r.2, k := st.k + 1 } r.1.1 r.1.2

/-- The `breaks.style == "block"` branch: build a block and append it
if non-empty (`if block_items:`). -/
def blockBreak (ctx : GenCtx) (st : GenState) : GenState :=
  let r := buildCommercialBlockForPlaylist ctx.commercials ctx.breaks
    ctx.commercialCfg (ctx.targets st.k) ctx.choice st.k
  let st1 := { st with k := r.2 }
  if r.1.1 ≠ [] then
    { st1 with
      items := st1.items ++ r.1.1.map .commercial,
      blockCount := st1.blockCount + 1,
      commercialSecs := st1.commercialSecs + r.1.2,
      totalSecs := st1.totalSecs + r.1.2 }
  else st1

/-- The commercial-insertion tail of the loop body (`if commercials and
breaks.enabled and episodes_since_last_commercial >= breaks.frequency
and episodes_added < ep_count:`), run right after an episode has been
scheduled. Note the source resets `episodes_since_last_commercial`
inside the outer `if`, for every style — also for `"disabled"`, which
matches neither branch and inserts nothing. -/
def insertBreaks (ctx : GenCtx) (st : GenState) : GenState :=
  if ctx.commercials ≠ [] ∧ ctx.breaks.enabled = true ∧
      ctx.breaks.frequency ≤ st.sinceBreak ∧ st.episodesAdded < ctx.epCount then
    let st2 :=
      if ctx.breaks.style = "single" then singleBreak ctx st
      else if ctx.breaks.style = "block" then blockBreak ctx st
      else st
    { st2 with sinceBreak := 0 }
  else st

/-- The show selected by the rotation
(`active_states[rotation_idx % len(active_states)]`), as its position
in the full state list. -/
def selIdx (st : GenState) : Nat :=
  (activeIdx st.states).getD (st.rotation % (activeIdx st.states).length) 0

/-- The show state selected by the rotation. -/
def selShow (st : GenState) : ShowState :=
  st.states.getD (selIdx st) default

/-- The exhaustion branch of the loop body: mark the selected show (at
list position `si`, with post-lookup cursor `(ns, ne)`) exhausted,
record it in `dropped_shows`, and take the rotation counter back by
one (`rotation_idx -= 1` right after the `rotation_idx += 1`). -/
def exhaustShow (st : GenState) (si : Nat) (s : ShowState) (ns ne : Int) :
    GenState :=
  { st with
    states := st.states.set si
      { s with current_season := ns, current_episode := ne, exhausted := true },
    dropped := st.dropped ++ [s.name],
    rotation := (st.rotation + 1) - 1 }

/-- The scheduling branch of the loop body: append the episode, bump
the counters, advance the show's cursor past the scheduled episode
(`state.current_episode += 1`), keep the advanced rotation, then run
the commercial-insertion tail. -/
def scheduleEpisode (ctx : GenCtx) (st : GenState) (si : Nat) (s : ShowState)
    (ep : PlexEpisode) (ns ne : Int) : GenState :=
  insertBreaks ctx
    { st with
      states := st.states.set si
        { s with current_season := ns, current_episode := ne + 1,
                 episodes_added := s.episodes_added + 1 },
      items := st.items ++ [.episode s.name ns ep],
      episodesAdded := st.episodesAdded + 1,
      totalSecs := st.totalSecs + getDurationSecs ep.duration,
      sinceBreak := st.sinceBreak + 1,
      rotation := st.rotation + 1 }

/-- One iteration of `generate_playlist`'s `while` loop: select the
show at `rotation_idx mod active_count`, advance rotation, ask it for
its next episode; on exhaustion mark it, record it in `dropped_shows`
and take the rotation counter back by one; otherwise append the
episode, advance the cursor and run the commercial-insertion tail. -/
def genStep (ctx : GenCtx) (st : GenState) : GenState :=
  match activeIdx st.states with
  | [] => st
  | a :: act =>
    let si := (a :: act).getD (st.rotation % (a :: act).length) 0
    let s := st.states.getD si default
    let r := getNextEpisode s.plexShow s.current_season s.current_episode
    match r.1 with
    | none => exhaustShow st si s r.2.1 r.2.2
    | some ep => scheduleEpisode ctx st si s ep r.2.1 r.2.2

/-- Fuel needed by the generation loop: every iteration either
schedules an episode (bringing `episodesAdded` closer to `epCount`) or
exhausts one show, so `(epCount − episodesAdded) + countActive` bounds
the remaining iterations. -/
def genMeasure (epCount : Nat) (st : GenState) : Nat :=
  (epCount - st.episodesAdded) + countActive st.states

/-- The `while episodes_added < ep_count` loop as a structural
recursion on fuel (with the `if not active_states: break` folded into
the loop condition). -/
def genLoopFuel (ctx : GenCtx) : Nat → GenState → GenState
  | 0, st => st
  | fuel + 1, st =>
    if st.episodesAdded < ctx.epCount ∧ activeIdx st.states ≠ [] then
      genLoopFuel ctx fuel (genStep ctx st)
    else st

/-- The generation loop, started with fuel equal to its termination
measure; `genLoop_eq` below shows this equals the loop's one-step
unfolding, so the fuel never runs out early. -/
def genLoop (ctx : GenCtx) (st : GenState) : GenState :=
  genLoopFuel ctx (genMeasure ctx.epCount st) st

/-! ### `generate_playlist` -/

/-- `GenerationResult`: results from playlist generation. The source
formats `show_positions` values as `"SxxEyy"` strings; the embedding
keeps the underlying `(season, episode)` numbers. -/
structure GenerationResult where
  playlist_items : List ScheduledItem
  episodes_by_show : List (String × Nat)
  show_positions : List (String × Int × Int)
  total_runtime_secs : Rat
  commercial_block_count : Nat
  commercial_total_secs : Rat
  dropped_shows : List String
  deriving Repr, DecidableEq

instance : Inhabited GenerationResult :=
  ⟨⟨[], [], [], 0, 0, 0, []⟩⟩


/-- The two fatal conditions of `generate_playlist` (both raised as
`ValueError` in the source). -/
inductive GenError where
  | emptyPlaylist
  | noResolvableShows
  deriving Repr, DecidableEq

instance : DecidableEq (Except GenError GenerationResult) := fun a b =>
  match a, b with
  | .ok x, .ok y =>
    if h : x = y then isTrue (by rw [h])
    else isFalse (fun hc => absurd (by injection hc) h)
  | .error x, .error y =>
    if h : x = y then isTrue (by rw [h])
    else isFalse (fun hc => absurd (by injection hc) h)
  | .ok _, .error _ => isFalse (fun hc => Except.noConfusion hc)
  | .error _, .ok _ => isFalse (fun hc => Except.noConfusion hc)

/-- Everything `generate_playlist` leaves behind: the returned result
(or the raised error), plus the records the source mutates in place —
the playlist (cursor resets and write-backs) and the global config
(premiere-year backfill). -/
structure GenOutcome where
  result : Except GenError GenerationResult
  playlist : PlaylistDefinition
  config : RTVConfig

/-- Resolving one playlist show into a `ShowState` (sans `psIdx`):
skip it (`none`) when it is missing from the global shows, disabled,
or not found in Plex. -/
def resolveShow (config : RTVConfig) (catalog : Catalog) (ps : PlaylistShow) :
    Option ShowState :=
  match config.get_global_show ps.name with
  | none => none
  | some gs =>
    if gs.enabled then
      match catalog.findShow ps.name gs.library with
      | some sh =>
        some { name := ps.name, library := gs.library, year := gs.year,
               psIdx := 0, plexShow := sh,
               current_season := ps.current_season,
               current_episode := ps.current_episode,
               exhausted := false, episodes_added := 0 }
      | none => none
    else none

/-- The show states built from the playlist's shows (in order), each
remembering the position of its backing playlist record. -/
def buildStates (config : RTVConfig) (catalog : Catalog)
    (shows : List PlaylistShow) : List ShowState :=
  shows.enum.filterMap (fun p =>
    (resolveShow config catalog p.2).map (fun s => { s with psIdx := p.1 }))

/-- Backfill a missing premiere year from the catalog's show metadata
(`getattr(state.plex_show, "year", None)`). -/
def backfillYear (s : ShowState) : ShowState :=
  match s.year with
  | none =>
    match s.plexShow.year with
    | some y => { s with year := some y }
    | none => s
  | some _ => s

/-- The premiere-year backfill also written to the caller's global
show record (`gs.year = state.year`). -/
def backfillConfig (config : RTVConfig) (states : List ShowState) : RTVConfig :=
  states.foldl (fun cfg s =>
    match s.year, s.plexShow.year with
    | none, some y =>
      { cfg with shows := cfg.shows.map (fun gs =>
          if gs.name.toLower = s.name.toLower then { gs with year := some y }
          else gs) }
    | _, _ => cfg) config

/-- Build one dict entry, Python style: overwrite the value if the key
is present, append otherwise. -/
def assocSet {β : Type} (l : List (String × β)) (key : String) (v : β) :
    List (String × β) :=
  if l.any (fun p => p.1 = key) then
    l.map (fun p => if p.1 = key then (key, v) else p)
  else l ++ [(key, v)]

/-- `generate_playlist`. `episodeCount`/`fromStart` are the
`episode_count`/`from_start` arguments; `choice` and `targets` are the
oracle streams standing for the random draws; the progress callback is
pure instrumentation and is not modelled. -/
def generatePlaylist (config : RTVConfig) (playlist : PlaylistDefinition)
    (catalog : Catalog) (episodeCount : Option Nat) (fromStart : Bool)
    (choice : Nat → Nat) (targets : Nat → Rat) : GenOutcome :=
  if playlist.shows = [] then
    { result := .error .emptyPlaylist, playlist := playlist, config := config }
  else
    let epCount := match episodeCount with
      | some n => if n ≠ 0 then n else playlist.episodes_per_generation
      | none => playlist.episodes_per_generation
    let playlist1 :=
      if fromStart then
        { playlist with shows := playlist.shows.map (fun ps =>
            { ps with current_season := 1, current_episode := 1 }) }
      else playlist
    let states0 := buildStates config catalog playlist1.shows
    if states0 = [] then
      { result := .error .noResolvableShows, playlist := playlist1,
        config := config }
    else
      let states1 := states0.map backfillYear
      let config1 := backfillConfig config states0
      let states2 := sortStates playlist1.sort_by states1
      let commercials :=
        if playlist1.breaks.enabled then
          catalog.listCommercials config.commercials.library_name
        else []
      let ctx : GenCtx :=
        { commercials := commercials, breaks := playlist1.breaks,
          commercialCfg := config.commercials, epCount := epCount,
          choice := choice, targets := targets }
      let st0 : GenState :=
        { states := states2, items := [], episodesAdded := 0, blockCount := 0,
          commercialSecs := 0, totalSecs := 0, dropped := [], sinceBreak := 0,
          rotation := 0, history := [], k := 0 }
      let fin := genLoop ctx st0
      let shows' := fin.states.foldl (fun shs s =>
        shs.set s.psIdx
          { (shs.getD s.psIdx ⟨"", 1, 1⟩) with
            current_season := s.current_season,
            current_episode := s.current_episode }) playlist1.shows
      let episodesByShow := fin.states.foldl (fun m s =>
        assocSet m s.name s.episodes_added) []
      let showPositions := fin.states.foldl (fun m s =>
        assocSet m s.name (s.current_season, s.current_episode)) []
      { result := .ok
          { playlist_items := fin.items,
            episodes_by_show := episodesByShow,
            show_positions := showPositions,
            total_runtime_secs := fin.totalSecs,
            commercial_block_count := fin.blockCount,
            commercial_total_secs := fin.commercialSecs,
            dropped_shows := fin.dropped },
        playlist := { playlist1 with shows := shows' },
        config := config1 }

/-! ### Concrete fixtures used by instance theorems and witnesses -/

/-- A season's worth of episodes, numbered from 1, all with the same
duration attribute. -/
def mkEpisodes (n : Nat) (dur : Option Int) : List PlexEpisode :=
  (List.range n).map (fun i => ⟨(i : Int) + 1, dur⟩)

/-- A show with 10 episodes in season 1. -/
def shA : PlexShow := ⟨some 90, [⟨1, mkEpisodes 10 (some 500)⟩]⟩

/-- A show with 2 episodes in season 1. -/
def shB : PlexShow := ⟨some 91, [⟨1, mkEpisodes 2 (some 500)⟩]⟩

/-- A show whose single episode has no duration attribute. -/
def shN : PlexShow := ⟨some 70, [⟨1, [⟨1, none⟩]⟩]⟩

/-- A show with one 5-episode season. -/
def shF : PlexShow := ⟨some 80, [⟨1, mkEpisodes 5 (some 500)⟩]⟩

/-- A show with a 3-episode season 1 and a 4-episode season 2. -/
def shG : PlexShow := ⟨some 85, [⟨1, mkEpisodes 3 (some 500)⟩,
  ⟨2, mkEpisodes 4 (some 500)⟩]⟩

/-- A one-clip commercial pool (30-second clip). -/
def comPool : List MediaItem := [⟨some 30000, "generic"⟩]

/-- A 5-second commercial clip. -/
def clip5 : MediaItem := ⟨some 5000, "generic"⟩

/-- A commercial configuration with no categories. -/
def ccfgBasic : CommercialConfig := ⟨"Coms", ⟨30, 120⟩, []⟩

/-- The test catalog: shows A, B, N, F, G; everything else missing. -/
def catAll : Catalog :=
  { findShow := fun name _ =>
      if name = "A" then some shA
      else if name = "B" then some shB
      else if name = "N" then some shN
      else if name = "F" then some shF
      else if name = "G" then some shG
      else none,
    listCommercials := fun _ => comPool }

/-- Global config in which A, B, N, F, G are enabled in library "TV". -/
def cfgAll : RTVConfig :=
  { shows := [⟨"A", "TV", some 90, true⟩, ⟨"B", "TV", some 91, true⟩,
      ⟨"N", "TV", some 70, true⟩, ⟨"F", "TV", some 80, true⟩,
      ⟨"G", "TV", some 85, true⟩],
    commercials := ccfgBasic }

/-- Breaks turned off. -/
def breaksOff : BreakConfig := ⟨false, "single", 1, 50, ⟨30, 120⟩⟩

/-- Single-clip breaks every `f` episodes. -/
def breaksSingle (f : Nat) : BreakConfig := ⟨true, "single", f, 50, ⟨30, 120⟩⟩

/-- Breaks enabled but with style `"disabled"` (a configuration the
pydantic validator accepts). -/
def breaksStyleDisabled : BreakConfig := ⟨true, "disabled", 1, 50, ⟨30, 120⟩⟩

/-- A playlist over the given shows (config order, prescribed breaks). -/
def mkPlaylist (shows : List PlaylistShow) (breaks : BreakConfig) :
    PlaylistDefinition :=
  ⟨"P", shows, breaks, 30, "config_order"⟩

/-- The claim C1 scenario: shows with episode counts 10 and 2,
`targetEpisodeCount = 6`, no breaks. -/
def outC1 : GenOutcome :=
  generatePlaylist cfgAll (mkPlaylist [⟨"A", 1, 1⟩, ⟨"B", 1, 1⟩] breaksOff)
    catAll (some 6) false (fun _ => 0) (fun _ => 30)

/-- The claim C2 scenario: one long show, single-style breaks with
`frequency = 2`, `targetEpisodeCount = 6`. -/
def outC2 : GenOutcome :=
  generatePlaylist cfgAll (mkPlaylist [⟨"A", 1, 1⟩] (breaksSingle 2))
    catAll (some 6) false (fun _ => 0) (fun _ => 30)

/-- A whole run with breaks enabled but style `"disabled"`. -/
def outC2d : GenOutcome :=
  generatePlaylist cfgAll (mkPlaylist [⟨"A", 1, 1⟩] breaksStyleDisabled)
    catAll (some 2) false (fun _ => 0) (fun _ => 30)

/-- A run scheduling the single episode whose duration is unknown. -/
def outC5 : GenOutcome :=
  generatePlaylist cfgAll (mkPlaylist [⟨"N", 1, 1⟩] breaksOff)
    catAll (some 1) false (fun _ => 0) (fun _ => 30)

/-- Three episodes of the 5-episode show F from (1,1). -/
def outC7a : GenOutcome :=
  generatePlaylist cfgAll (mkPlaylist [⟨"F", 1, 1⟩] breaksOff)
    catAll (some 3) false (fun _ => 0) (fun _ => 30)

/-- One episode of show G whose cursor (1,4) sits past the end of its
3-episode first season. -/
def outC7b : GenOutcome :=
  generatePlaylist cfgAll (mkPlaylist [⟨"G", 1, 4⟩] breaksOff)
    catAll (some 1) false (fun _ => 0) (fun _ => 30)

/-- A run whose playlist names a show ("X") that is missing from the
global config: the miss is skipped and the rest is generated. -/
def outSkip : GenOutcome :=
  generatePlaylist cfgAll (mkPlaylist [⟨"A", 1, 1⟩, ⟨"X", 1, 1⟩] breaksOff)
    catAll (some 2) false (fun _ => 0) (fun _ => 30)

/-- The catalog with an empty commercial library. -/
def catNoComs : Catalog :=
  { findShow := catAll.findShow, listCommercials := fun _ => [] }

/-- Breaks enabled (every episode) but the commercial pool is empty. -/
def outNoComs : GenOutcome :=
  generatePlaylist cfgAll (mkPlaylist [⟨"A", 1, 1⟩] (breaksSingle 1))
    catNoComs (some 3) false (fun _ => 0) (fun _ => 30)

/-- A run on a playlist with an empty show list (the first fatal
condition), without a position reset. -/
def outEmpty : GenOutcome :=
  generatePlaylist cfgAll (mkPlaylist [] breaksOff)
    catAll none false (fun _ => 0) (fun _ => 30)

/-- A run in which no playlist show resolves, without a position
reset. -/
def outUnresolved : GenOutcome :=
  generatePlaylist cfgAll (mkPlaylist [⟨"X", 3, 7⟩] breaksOff)
    catAll none false (fun _ => 0) (fun _ => 30)

/-- The loop state at the start of a generation over the given show
states (as `generate_playlist` initialises it). -/
def initialState (states : List ShowState) : GenState :=
  { states := states, items := [], episodesAdded := 0, blockCount := 0,
    commercialSecs := 0, totalSecs := 0, dropped := [], sinceBreak := 0,
    rotation := 0, history := [], k := 0 }

/-- The resolved state of show A at (1,1). -/
def stateA : ShowState :=
  ⟨"A", "TV", some 90, 0, shA, 1, 1, false, 0⟩

/-- The resolved state of show B at (1,3) — one position past its last
episode. -/
def stateB3 : ShowState :=
  ⟨"B", "TV", some 91, 0, shB, 1, 3, false, 0⟩

/-- Loop context: breaks enabled with style `"disabled"`, two episodes
to schedule, a non-empty pool. -/
def ctxDisabled : GenCtx :=
  ⟨comPool, breaksStyleDisabled, ccfgBasic, 2, fun _ => 0, fun _ => 30⟩

/-- Loop context with breaks off. -/
def ctxPlain : GenCtx :=
  ⟨[], breaksOff, ccfgBasic, 5, fun _ => 0, fun _ => 30⟩

/-- A show state fixture for sorting (year only). -/
def mkState (n : String) (y : Option Int) : ShowState :=
  ⟨n, "TV", y, 0, default, 1, 1, false, 0⟩

/-- Whether generation returned a result (no fatal error). -/
def resultIsOk : Except GenError GenerationResult → Bool
  | .ok _ => true
  | .error _ => false

/-- The last `g` elements of a list — the contents of a
`deque(maxlen := g)` after appending the whole list in order. -/
def lastN (g : Nat) (l : List Nat) : List Nat :=
  l.drop (l.length - g)

/-! ## Theorems

### The block-building loop -/

/-- Each loop iteration accumulates at least one millisecond's worth of
duration: a clip with positive duration contributes at least `1/1000`
of a second, and every other clip falls back to `30`. -/
theorem adjustedDuration_ge_milli (m : MediaItem) :
    (1 : Rat) / 1000 ≤ adjustedDuration m := by
  unfold adjustedDuration getDurationSecs
  rcases hd : m.duration with _ | v
  · norm_num
  · by_cases hv : v = 0
    · subst hv; norm_num
    · simp only [ne_eq, hv, not_false_iff, if_true]
      by_cases hle : (v : Rat) / 1000 ≤ 0
      · rw [if_pos hle]; norm_num
      · rw [if_neg hle]
        have hpos : (0 : Rat) < (v : Rat) / 1000 := lt_of_not_ge hle
        have hv1 : (1 : Rat) ≤ (v : Rat) := by
          have h0 : (0 : Rat) < (v : Rat) := by nlinarith [hpos]
          have hz : (0 : Int) < v := by exact_mod_cast h0
          have hz1 : (1 : Int) ≤ v := by omega
          exact_mod_cast hz1
        gcongr

/-- The loop's fuel is exhausted exactly when the accumulated duration
has reached the target. -/
theorem blockLoopMeasure_eq_zero {target dur : Rat} :
    blockLoopMeasure target dur = 0 ↔ target ≤ dur := by
  unfold blockLoopMeasure
  rw [Int.toNat_eq_zero]
  constructor
  · intro h
    have h2 : (target - dur) * 1000 ≤ ((0 : Int) : Rat) := Int.ceil_le.mp h
    rw [Int.cast_zero] at h2
    nlinarith
  · intro h
    apply Int.ceil_le.mpr
    rw [Int.cast_zero]
    nlinarith

/-- Scheduling one more clip strictly decreases the loop's fuel
measure (each iteration adds at least `1/1000` of a second). -/
theorem blockLoopMeasure_lt {target dur : Rat} (h : dur < target) (m : MediaItem) :
    blockLoopMeasure target (dur + adjustedDuration m) < blockLoopMeasure target dur := by
  have hm := adjustedDuration_ge_milli m
  unfold blockLoopMeasure
  have h1 : (target - (dur + adjustedDuration m)) * 1000 ≤ (target - dur) * 1000 - 1 := by
    nlinarith
  have h2 : Int.ceil ((target - (dur + adjustedDuration m)) * 1000) ≤
      Int.ceil ((target - dur) * 1000 - 1) := Int.ceil_le_ceil h1
  have h3 : ((target - dur) * 1000 - 1) = ((target - dur) * 1000 - ((1 : Int) : Rat)) := by
    norm_num
  rw [h3, Int.ceil_sub_int] at h2
  have h4 : 1 ≤ Int.ceil ((target - dur) * 1000) := by
    have hp : (0 : Rat) < (target - dur) * 1000 := by nlinarith
    exact Int.ceil_pos.mpr hp
  omega

/-- On a non-empty pool the loop can only exit by reaching the target:
with enough fuel the returned total is at least `target`. -/
theorem blockLoopFuel_ge_target (clips : List MediaItem) (weights : List Rat)
    (target : Rat) (choice : Nat → Nat) (hne : clips ≠ []) :
    ∀ (fuel k : Nat) (block : List MediaItem) (dur : Rat),
      blockLoopMeasure target dur ≤ fuel →
      target ≤ (blockLoopFuel clips weights target choice fuel k block dur).2.1 := by
  intro fuel
  induction fuel with
  | zero =>
    intro k block dur hm
    exact blockLoopMeasure_eq_zero.mp (Nat.le_zero.mp hm)
  | succ f ih =>
    intro k block dur hm
    by_cases hcond : dur < target ∧ clips ≠ []
    · simp only [blockLoopFuel, if_pos hcond]
      apply ih
      have hlt := blockLoopMeasure_lt hcond.1
        (clips.getD (choice k % clips.length) ⟨none, ""⟩)
      omega
    · simp only [blockLoopFuel, if_neg hcond]
      rcases not_and_or.mp hcond with h | h
      · exact le_of_not_lt h
      · exact absurd hne h

/-- The loop's result does not depend on the fuel, provided the fuel is
at least the measure. -/
theorem blockLoopFuel_congr (clips : List MediaItem) (weights : List Rat)
    (target : Rat) (choice : Nat → Nat) :
    ∀ (f f' k : Nat) (block : List MediaItem) (dur : Rat),
      blockLoopMeasure target dur ≤ f → blockLoopMeasure target dur ≤ f' →
      blockLoopFuel clips weights target choice f k block dur =
        blockLoopFuel clips weights target choice f' k block dur := by
  intro f
  induction f with
  | zero =>
    intro f' k block dur hm hm'
    have h0 : target ≤ dur := blockLoopMeasure_eq_zero.mp (Nat.le_zero.mp hm)
    cases f' with
    | zero => rfl
    | succ g =>
      simp only [blockLoopFuel]
      rw [if_neg (fun hc => absurd hc.1 (not_lt.mpr h0))]
  | succ g ih =>
    intro f' k block dur hm hm'
    cases f' with
    | zero =>
      have h0 : target ≤ dur := blockLoopMeasure_eq_zero.mp (Nat.le_zero.mp hm')
      simp only [blockLoopFuel]
      rw [if_neg (fun hc => absurd hc.1 (not_lt.mpr h0))]
    | succ g' =>
      by_cases hcond : dur < target ∧ clips ≠ []
      · simp only [blockLoopFuel, if_pos hcond]
        apply ih
        · have := blockLoopMeasure_lt hcond.1
            (clips.getD (choice k % clips.length) ⟨none, ""⟩)
          omega
        · have := blockLoopMeasure_lt hcond.1
            (clips.getD (choice k % clips.length) ⟨none, ""⟩)
          omega
      · simp only [blockLoopFuel, if_neg hcond]

/-- Faithfulness of the fuel embedding: `blockLoopRun` satisfies the
one-step unfolding equation of the source's
`while block_duration < target_duration and clips:` loop. -/
theorem blockLoopRun_eq (clips : List MediaItem) (weights : List Rat)
    (target : Rat) (choice : Nat → Nat) (k : Nat) (block : List MediaItem)
    (dur : Rat) :
    blockLoopRun clips weights target choice k block dur =
      if dur < target ∧ clips ≠ [] then
        blockLoopRun clips weights target choice (k + 1)
          (block ++ [clips.getD (choice k % clips.length) ⟨none, ""⟩])
          (dur + adjustedDuration (clips.getD (choice k % clips.length) ⟨none, ""⟩))
      else (block, dur, k) := by
  by_cases hcond : dur < target ∧ clips ≠ []
  · rw [if_pos hcond]
    unfold blockLoopRun
    have h1 : 1 ≤ blockLoopMeasure target dur := by
      rcases Nat.eq_zero_or_pos (blockLoopMeasure target dur) with h | h
      · exact absurd hcond.1 (not_lt.mpr (blockLoopMeasure_eq_zero.mp h))
      · exact h
    obtain ⟨m, hm⟩ : ∃ m, blockLoopMeasure target dur = m + 1 :=
      ⟨blockLoopMeasure target dur - 1, by omega⟩
    rw [hm]
    simp only [blockLoopFuel, if_pos hcond]
    apply blockLoopFuel_congr
    · have := blockLoopMeasure_lt hcond.1
        (clips.getD (choice k % clips.length) ⟨none, ""⟩)
      omega
    · exact le_refl _
  · rw [if_neg hcond]
    unfold blockLoopRun
    cases hm : blockLoopMeasure target dur with
    | zero => rfl
    | succ m => simp only [blockLoopFuel, if_neg hcond]

/-- The loop only appends to its block, and the returned total is the
starting total plus the adjusted durations of the appended clips. -/
theorem blockLoopFuel_items_sum (clips : List MediaItem) (weights : List Rat)
    (target : Rat) (choice : Nat → Nat) :
    ∀ (fuel k : Nat) (block : List MediaItem) (dur : Rat),
      ∃ t : List MediaItem,
        (blockLoopFuel clips weights target choice fuel k block dur).1 = block ++ t ∧
        (blockLoopFuel clips weights target choice fuel k block dur).2.1 =
          dur + (t.map adjustedDuration).sum := by
  intro fuel
  induction fuel with
  | zero => intro k block dur; exact ⟨[], by simp [blockLoopFuel]⟩
  | succ f ih =>
    intro k block dur
    by_cases hcond : dur < target ∧ clips ≠ []
    · simp only [blockLoopFuel, if_pos hcond]
      obtain ⟨t, h1, h2⟩ := ih (k + 1)
        (block ++ [clips.getD (choice k % clips.length) ⟨none, ""⟩])
        (dur + adjustedDuration (clips.getD (choice k % clips.length) ⟨none, ""⟩))
      refine ⟨clips.getD (choice k % clips.length) ⟨none, ""⟩ :: t, ?_, ?_⟩
      · rw [h1]; simp
      · rw [h2]; simp [List.sum_cons]; ring
    · simp only [blockLoopFuel, if_neg hcond]
      exact ⟨[], by simp⟩

/-- `build_commercial_block_for_playlist` on a non-empty pool returns a
total of at least the drawn target. -/
theorem buildForPlaylist_total_ge (commercials : List MediaItem)
    (bcfg : BreakConfig) (ccfg : CommercialConfig) (target : Rat)
    (choice : Nat → Nat) (k : Nat) (hne : commercials ≠ []) :
    target ≤ (buildCommercialBlockForPlaylist commercials bcfg ccfg target choice k).1.2 := by
  cases commercials with
  | nil => exact absurd rfl hne
  | cons p ps =>
    simp only [buildCommercialBlockForPlaylist, weightedPool, List.map_cons]
    exact blockLoopFuel_ge_target _ _ _ _ (by simp) _ _ _ _ (le_refl _)

/-- `build_commercial_block` on a non-empty pool returns a total of at
least the drawn target. -/
theorem buildBlock_total_ge (commercials : List MediaItem)
    (ccfg : CommercialConfig) (target : Rat)
    (choice : Nat → Nat) (k : Nat) (hne : commercials ≠ []) :
    target ≤ (buildCommercialBlock commercials ccfg target choice k).1.2 := by
  cases commercials with
  | nil => exact absurd rfl hne
  | cons p ps =>
    simp only [buildCommercialBlock, weightedPool, List.map_cons]
    exact blockLoopFuel_ge_target _ _ _ _ (by simp) _ _ _ _ (le_refl _)

/-! ### The single-commercial picker -/

/-- When the pool is strictly larger than the history, some index is
eligible, so the picked index is a fresh one: in range and not in the
recent history. -/
theorem pickIndex_fresh (n : Nat) (hist : List Nat) (c : Nat)
    (h : hist.length < n) :
    pickIndex n hist c < n ∧ pickIndex n hist c ∉ hist := by
  have hne : (List.range n).filter (fun i => decide (i ∉ hist)) ≠ [] := by
    intro hempty
    have hsub : ∀ i ∈ List.range n, i ∈ hist := by
      intro i hi
      by_contra hmem
      have hmemf : i ∈ (List.range n).filter (fun i => decide (i ∉ hist)) :=
        List.mem_filter.mpr ⟨hi, by simpa using hmem⟩
      rw [hempty] at hmemf
      exact absurd hmemf (List.not_mem_nil i)
    have hsp : (List.range n).Subperm hist :=
      (List.nodup_range n).subperm (fun i hi => hsub i hi)
    have hlen := hsp.length_le
    rw [List.length_range] at hlen
    omega
  cases heq : (List.range n).filter (fun i => decide (i ∉ hist)) with
  | nil => exact absurd heq hne
  | cons e es =>
    have hpieq : pickIndex n hist c = (e :: es).getD (c % (e :: es).length) 0 := by
      unfold pickIndex
      rw [heq]
    rw [hpieq]
    have hlt : c % (e :: es).length < (e :: es).length :=
      Nat.mod_lt _ (by simp)
    have hmem : (e :: es).getD (c % (e :: es).length) 0 ∈ e :: es := by
      rw [List.getD_eq_getElem _ _ hlt]
      exact List.getElem_mem hlt
    have hmem2 : (e :: es).getD (c % (e :: es).length) 0 ∈
        (List.range n).filter (fun i => decide (i ∉ hist)) := by
      rw [heq]; exact hmem
    have hff := List.mem_filter.mp hmem2
    refine ⟨List.mem_range.mp hff.1, by simpa using hff.2⟩

/-- Appending to a full `deque(maxlen := g)` that holds the last `g`
elements of `l` yields the last `g` elements of `l ++ [x]`. -/
theorem dequeAppend_lastN (g : Nat) (l : List Nat) (x : Nat) :
    dequeAppend (lastN g l) x g = lastN g (l ++ [x]) := by
  unfold dequeAppend lastN
  have hkey : l.drop (l.length - g) ++ [x] = (l ++ [x]).drop (l.length - g) :=
    (List.drop_append_of_le_length (by omega)).symm
  have hax : (l ++ [x]).length = l.length + 1 := by simp
  rw [hkey, hax]
  have hlen2 : ((l ++ [x]).drop (l.length - g)).length =
      l.length + 1 - (l.length - g) := by
    rw [List.length_drop, hax]
  by_cases hle : g ≤ l.length
  · rw [if_pos (by rw [hlen2]; omega)]
    rw [hlen2, List.drop_drop]
    congr 1
    omega
  · rw [if_neg (by rw [hlen2]; omega)]
    congr 1
    omega

/-- The bounded history holds at most `g` entries. -/
theorem lastN_length_le (g : Nat) (l : List Nat) : (lastN g l).length ≤ g := by
  unfold lastN
  rw [List.length_drop]
  omega

/-- An element within the last `g` positions of `l` is in `lastN g l`. -/
theorem getElem_mem_lastN (g : Nat) (l : List Nat) (i : Nat) (h : i < l.length)
    (hi : l.length - g ≤ i) : l[i] ∈ lastN g l := by
  unfold lastN
  have h2 : i - (l.length - g) < (l.drop (l.length - g)).length := by
    rw [List.length_drop]; omega
  have h3 : (l.drop (l.length - g))[i - (l.length - g)] = l[i] := by
    rw [List.getElem_drop]
    congr 1
    omega
  rw [← h3]
  exact List.getElem_mem h2

/-- The no-repeat induction: starting from a history that holds the
last `g` picks of a (virtual) prefix, no later pick equals any pick
made fewer than `g` steps before it. -/
theorem pickIndexRun_no_repeat_aux (n g : Nat) (hg : g < n) :
    ∀ (choices pre : List Nat) (i j : Nat), i < j → j - i < g →
      pre.length ≤ j →
      ∀ (hj : j < (pre ++ pickIndexRun n g (lastN g pre) choices).length)
        (hi : i < (pre ++ pickIndexRun n g (lastN g pre) choices).length),
        (pre ++ pickIndexRun n g (lastN g pre) choices)[i] ≠
          (pre ++ pickIndexRun n g (lastN g pre) choices)[j] := by
  intro choices
  induction choices with
  | nil =>
    intro pre i j hij hwin hpre hj hi
    simp only [pickIndexRun, List.append_nil] at hj
    omega
  | cons c cs ih =>
    intro pre i j hij hwin hpre
    have hrw : pre ++ pickIndexRun n g (lastN g pre) (c :: cs) =
        (pre ++ [pickIndex n (lastN g pre) c]) ++
          pickIndexRun n g (lastN g (pre ++ [pickIndex n (lastN g pre) c])) cs := by
      show pre ++ (pickIndex n (lastN g pre) c ::
          pickIndexRun n g (dequeAppend (lastN g pre) (pickIndex n (lastN g pre) c) g) cs) = _
      rw [dequeAppend_lastN, List.append_cons]
    rw [hrw]
    intro hj hi
    rcases Nat.lt_or_ge j (pre.length + 1) with hj1 | hj1
    · -- j = pre.length: position of the new pick, which is fresh
      have hjeq : j = pre.length := by omega
      subst hjeq
      have hfresh := pickIndex_fresh n (lastN g pre) c
        (lt_of_le_of_lt (lastN_length_le g pre) hg)
      have hilt : i < pre.length := by omega
      have hilt2 : i < (pre ++ [pickIndex n (lastN g pre) c]).length := by
        simp; omega
      have hjlt2 : pre.length < (pre ++ [pickIndex n (lastN g pre) c]).length := by
        simp
      rw [List.getElem_append_left hilt2, List.getElem_append_left hjlt2,
        List.getElem_append_left hilt,
        List.getElem_append_right (le_refl pre.length)]
      simp only [Nat.sub_self, List.getElem_cons_zero]
      intro heq
      exact hfresh.2 (heq ▸ getElem_mem_lastN g pre i hilt (by omega))
    · -- j lies in the recursive run: fold the new pick into the prefix
      exact ih (pre ++ [pickIndex n (lastN g pre) c]) i j hij hwin
        (by simp; omega) hj hi

/-! ### The pre-round-robin sort -/

/-- The sorted output is sorted by the key (ascending). -/
theorem sortByKey_sorted {κ : Type} [LinearOrder κ] (key : ShowState → κ)
    (l : List ShowState) : (sortByKey key l).Sorted (keyRel key) := by
  haveI : IsTotal ShowState (keyRel key) := ⟨fun a b => le_total (key a) (key b)⟩
  haveI : IsTrans ShowState (keyRel key) :=
    ⟨fun a b c hab hbc => le_trans hab hbc⟩
  exact List.sorted_insertionSort _ l

/-- Sorting is idempotent: a second pass leaves the order unchanged. -/
theorem sortByKey_idem {κ : Type} [LinearOrder κ] (key : ShowState → κ)
    (l : List ShowState) : sortByKey key (sortByKey key l) = sortByKey key l := by
  haveI : IsTotal ShowState (keyRel key) := ⟨fun a b => le_total (key a) (key b)⟩
  haveI : IsTrans ShowState (keyRel key) :=
    ⟨fun a b c hab hbc => le_trans hab hbc⟩
  exact List.Sorted.insertionSort_eq (sortByKey_sorted key l)

/-- The sorted output is a permutation of the input. -/
theorem sortByKey_perm {κ : Type} [LinearOrder κ] (key : ShowState → κ)
    (l : List ShowState) : (sortByKey key l).Perm l :=
  List.perm_insertionSort _ l

/-- Inserting an element whose key is not `k₀` does not disturb the
`k₀`-keyed sublist. -/
theorem orderedInsert_filter_ne {κ : Type} [LinearOrder κ] (key : ShowState → κ)
    (k₀ : κ) (b : ShowState) (l : List ShowState) (hb : ¬ key b = k₀) :
    (l.orderedInsert (keyRel key) b).filter (fun x => decide (key x = k₀)) =
      l.filter (fun x => decide (key x = k₀)) := by
  rw [List.orderedInsert_eq_take_drop, List.filter_append]
  simp only [List.filter_cons, decide_eq_false hb]
  rw [if_neg Bool.false_ne_true]
  rw [← List.filter_append, List.takeWhile_append_dropWhile]

/-- Inserting an element of the `k₀` class places it in front of the
rest of the class: insertion sort is stable. -/
theorem orderedInsert_filter_eq {κ : Type} [LinearOrder κ] (key : ShowState → κ)
    (k₀ : κ) (b : ShowState) (l : List ShowState) (hb : key b = k₀) :
    (l.orderedInsert (keyRel key) b).filter (fun x => decide (key x = k₀)) =
      b :: l.filter (fun x => decide (key x = k₀)) := by
  rw [List.orderedInsert_eq_take_drop, List.filter_append]
  have htake : (l.takeWhile fun x => ¬ (keyRel key) b x).filter
      (fun x => decide (key x = k₀)) = [] := by
    rw [List.filter_eq_nil_iff]
    intro a ha
    have h1 := List.mem_takeWhile_imp ha
    simp only [decide_eq_true_eq]
    intro hak
    apply of_decide_eq_true at h1
    exact h1 (le_of_eq (by rw [hb, hak] : key b = key a) : keyRel key b a)
  rw [htake]
  simp only [List.filter_cons, decide_eq_true hb]
  have hsplit : l.filter (fun x => decide (key x = k₀)) =
      ((l.takeWhile fun x => ¬ (keyRel key) b x) ++
        (l.dropWhile fun x => ¬ (keyRel key) b x)).filter
          (fun x => decide (key x = k₀)) := by
    rw [List.takeWhile_append_dropWhile]
  rw [hsplit, List.filter_append, htake]
  simp

/-- Stability of the sort: for every key value, the sublist of shows
with that key is unchanged (equal keys keep their original relative
order). -/
theorem sortByKey_stable {κ : Type} [LinearOrder κ] (key : ShowState → κ)
    (l : List ShowState) (k₀ : κ) :
    (sortByKey key l).filter (fun x => decide (key x = k₀)) =
      l.filter (fun x => decide (key x = k₀)) := by
  unfold sortByKey
  induction l with
  | nil => rfl
  | cons b t ih =>
    simp only [List.insertionSort]
    by_cases hb : key b = k₀
    · rw [orderedInsert_filter_eq key k₀ b _ hb, ih, List.filter_cons,
        decide_eq_true hb, if_pos rfl]
    · rw [orderedInsert_filter_ne key k₀ b _ hb, ih, List.filter_cons,
        decide_eq_false hb, if_neg Bool.false_ne_true]

/-! ### The generation loop: round-robin accounting -/

/-- Setting one list position changes `countP` exactly by the change of
the predicate's value at that position. -/
theorem countP_set {α : Type} (p : α → Bool) :
    ∀ (l : List α) (i : Nat) (a : α) (h : i < l.length),
      (l.set i a).countP p + (if p (l[i]) then 1 else 0) =
        l.countP p + (if p a then 1 else 0) := by
  intro l
  induction l with
  | nil => intro i a h; simp at h
  | cons b t ih =>
    intro i a h
    cases i with
    | zero =>
      simp only [List.set_cons_zero, List.countP_cons, List.getElem_cons_zero]
      omega
    | succ i =>
      simp only [List.set_cons_succ, List.countP_cons, List.getElem_cons_succ]
      have := ih i a (by simpa using h)
      omega

/-- `countActive` as a `countP`. -/
theorem countActive_eq_countP (l : List ShowState) :
    countActive l = l.countP (fun s => !s.exhausted) := by
  unfold countActive
  rw [List.countP_eq_length_filter]

/-- Marking an active show exhausted decreases the active count by
exactly one. -/
theorem countActive_set_exhaust (states : List ShowState) (si : Nat)
    (b : ShowState) (h : si < states.length)
    (ha : states[si].exhausted = false) (hb : b.exhausted = true) :
    countActive (states.set si b) + 1 = countActive states := by
  have hc := countP_set (fun x => !x.exhausted) states si b h
  rw [countActive_eq_countP, countActive_eq_countP]
  simp only [ha, hb, Bool.not_false, Bool.not_true] at hc
  simp at hc
  omega

/-- Replacing a show state without changing its exhaustion flag leaves
the active count unchanged. -/
theorem countActive_set_same (states : List ShowState) (si : Nat)
    (b : ShowState) (h : si < states.length)
    (hsame : b.exhausted = states[si].exhausted) :
    countActive (states.set si b) = countActive states := by
  have hc := countP_set (fun x => !x.exhausted) states si b h
  rw [countActive_eq_countP, countActive_eq_countP]
  rw [hsame] at hc
  omega

/-- Membership in the active-index list. -/
theorem activeIdx_mem (states : List ShowState) (i : Nat) :
    i ∈ activeIdx states ↔
      i < states.length ∧ (states.getD i default).exhausted = false := by
  unfold activeIdx
  rw [List.mem_filter, List.mem_range]
  simp

/-- The selected rotation slot is a member of the active-index list. -/
theorem activeIdx_getD_mem (act : List Nat) (rot : Nat) (h : act ≠ []) :
    act.getD (rot % act.length) 0 ∈ act := by
  have hlen : 0 < act.length := List.length_pos.mpr h
  have hlt : rot % act.length < act.length := Nat.mod_lt _ hlen
  rw [List.getD_eq_getElem _ _ hlt]
  exact List.getElem_mem hlt

/-- Appending a picked clip touches neither the show states nor the
scheduling counters. -/
theorem addClip_proj (st : GenState) (c : Option MediaItem) (d : Rat) :
    (addClip st c d).states = st.states ∧
    (addClip st c d).episodesAdded = st.episodesAdded ∧
    (addClip st c d).dropped = st.dropped := by
  cases c <;> exact ⟨rfl, rfl, rfl⟩

/-- The single-style branch touches neither the show states nor the
scheduling counters. -/
theorem singleBreak_proj (ctx : GenCtx) (st : GenState) :
    (singleBreak ctx st).states = st.states ∧
    (singleBreak ctx st).episodesAdded = st.episodesAdded ∧
    (singleBreak ctx st).dropped = st.dropped := by
  unfold singleBreak
  exact addClip_proj _ _ _

/-- The block-style branch touches neither the show states nor the
scheduling counters. -/
theorem blockBreak_proj (ctx : GenCtx) (st : GenState) :
    (blockBreak ctx st).states = st.states ∧
    (blockBreak ctx st).episodesAdded = st.episodesAdded ∧
    (blockBreak ctx st).dropped = st.dropped := by
  simp only [blockBreak]
  split <;> exact ⟨rfl, rfl, rfl⟩

/-- The commercial-insertion tail never touches the show states, the
episode counter, or the dropped list. -/
theorem insertBreaks_proj (ctx : GenCtx) (st : GenState) :
    (insertBreaks ctx st).states = st.states ∧
    (insertBreaks ctx st).episodesAdded = st.episodesAdded ∧
    (insertBreaks ctx st).dropped = st.dropped := by
  unfold insertBreaks
  split
  · split
    · exact ⟨(singleBreak_proj ctx st).1, (singleBreak_proj ctx st).2.1,
        (singleBreak_proj ctx st).2.2⟩
    · split
      · exact ⟨(blockBreak_proj ctx st).1, (blockBreak_proj ctx st).2.1,
          (blockBreak_proj ctx st).2.2⟩
      · exact ⟨rfl, rfl, rfl⟩
  · exact ⟨rfl, rfl, rfl⟩

/-- Projections of the exhaustion branch: the rotation counter is net
unchanged (`+= 1` then `-= 1`), no episode is scheduled, the show's
name is recorded, and the output items are untouched. -/
theorem exhaustShow_proj (st : GenState) (si : Nat) (s : ShowState) (ns ne : Int) :
    (exhaustShow st si s ns ne).episodesAdded = st.episodesAdded ∧
    (exhaustShow st si s ns ne).rotation = st.rotation ∧
    (exhaustShow st si s ns ne).states = st.states.set si
      { s with current_season := ns, current_episode := ne, exhausted := true } ∧
    (exhaustShow st si s ns ne).dropped = st.dropped ++ [s.name] ∧
    (exhaustShow st si s ns ne).items = st.items := by
  refine ⟨rfl, ?_, rfl, rfl, rfl⟩
  simp [exhaustShow]

/-- Projections of the scheduling branch. -/
theorem scheduleEpisode_proj (ctx : GenCtx) (st : GenState) (si : Nat)
    (s : ShowState) (ep : PlexEpisode) (ns ne : Int) :
    (scheduleEpisode ctx st si s ep ns ne).episodesAdded = st.episodesAdded + 1 ∧
    (scheduleEpisode ctx st si s ep ns ne).states = st.states.set si
      { s with current_season := ns, current_episode := ne + 1,
               episodes_added := s.episodes_added + 1 } ∧
    (scheduleEpisode ctx st si s ep ns ne).dropped = st.dropped := by
  unfold scheduleEpisode
  obtain ⟨h1, h2, h3⟩ := insertBreaks_proj ctx _
  exact ⟨by rw [h2], by rw [h1], by rw [h3]⟩

/-- With an empty commercial pool the insertion tail is the identity:
its gate condition requires a non-empty pool. -/
theorem insertBreaks_empty_pool (ctx : GenCtx) (st : GenState)
    (h : ctx.commercials = []) : insertBreaks ctx st = st := by
  unfold insertBreaks
  rw [if_neg]
  intro hc
  exact hc.1 h

/-- Every loop iteration either schedules an episode (leaving the
active count unchanged) or exhausts exactly one show (leaving the
episode count unchanged). -/
theorem genStep_measure (ctx : GenCtx) (st : GenState)
    (hact : activeIdx st.states ≠ []) :
    ((genStep ctx st).episodesAdded = st.episodesAdded + 1 ∧
      countActive (genStep ctx st).states = countActive st.states) ∨
    ((genStep ctx st).episodesAdded = st.episodesAdded ∧
      countActive (genStep ctx st).states + 1 = countActive st.states) := by
  cases hA : activeIdx st.states with
  | nil => exact absurd hA hact
  | cons a act =>
    have hsimem : (a :: act).getD (st.rotation % (a :: act).length) 0 ∈
        activeIdx st.states := by
      rw [hA]; exact activeIdx_getD_mem _ _ (by simp)
    obtain ⟨hsilt, hsiact⟩ := (activeIdx_mem st.states _).mp hsimem
    have hgetsi : st.states[(a :: act).getD (st.rotation % (a :: act).length) 0] =
        st.states.getD ((a :: act).getD (st.rotation % (a :: act).length) 0)
          default := by
      rw [List.getD_eq_getElem _ _ hsilt]
    have hget : st.states[(a :: act).getD (st.rotation % (a :: act).length)
        0].exhausted = false := by
      rw [hgetsi]; exact hsiact
    simp only [genStep, hA]
    split
    · -- exhaustion branch
      right
      obtain ⟨e1, _, e3, _, _⟩ := exhaustShow_proj st _ _ _ _
      refine ⟨e1, ?_⟩
      rw [e3]
      exact countActive_set_exhaust _ _ _ hsilt hget rfl
    · -- episode branch
      left
      obtain ⟨p1, p2, _⟩ := scheduleEpisode_proj ctx st _ _ _ _ _
      refine ⟨p1, ?_⟩
      rw [p2]
      exact countActive_set_same _ _ _ hsilt (by rw [hgetsi])

/-- The loop result does not depend on the fuel, provided it is at
least the measure. -/
theorem genLoopFuel_congr (ctx : GenCtx) :
    ∀ (f f' : Nat) (st : GenState), genMeasure ctx.epCount st ≤ f →
      genMeasure ctx.epCount st ≤ f' →
      genLoopFuel ctx f st = genLoopFuel ctx f' st := by
  intro f
  induction f with
  | zero =>
    intro f' st hm hm'
    have h0 : ¬ st.episodesAdded < ctx.epCount := by
      unfold genMeasure at hm; omega
    cases f' with
    | zero => rfl
    | succ g =>
      simp only [genLoopFuel]
      rw [if_neg (fun hc => absurd hc.1 h0)]
  | succ g ih =>
    intro f' st hm hm'
    cases f' with
    | zero =>
      have h0 : ¬ st.episodesAdded < ctx.epCount := by
        unfold genMeasure at hm'; omega
      simp only [genLoopFuel]
      rw [if_neg (fun hc => absurd hc.1 h0)]
    | succ g' =>
      by_cases hcond : st.episodesAdded < ctx.epCount ∧ activeIdx st.states ≠ []
      · simp only [genLoopFuel, if_pos hcond]
        have hdec : genMeasure ctx.epCount (genStep ctx st) + 1 ≤
            genMeasure ctx.epCount st := by
          rcases genStep_measure ctx st hcond.2 with ⟨h1, h2⟩ | ⟨h1, h2⟩ <;>
            · unfold genMeasure
              rw [h1]
              omega
        exact ih g' (genStep ctx st) (by omega) (by omega)
      · simp only [genLoopFuel, if_neg hcond]

/-- Faithfulness of the fuel embedding: `genLoop` satisfies the
one-step unfolding equation of the source's
`while episodes_added < ep_count:` loop (with the
`if not active_states: break` folded into the condition). -/
theorem genLoop_eq (ctx : GenCtx) (st : GenState) :
    genLoop ctx st =
      if st.episodesAdded < ctx.epCount ∧ activeIdx st.states ≠ [] then
        genLoop ctx (genStep ctx st)
      else st := by
  unfold genLoop
  by_cases hcond : st.episodesAdded < ctx.epCount ∧ activeIdx st.states ≠ []
  · rw [if_pos hcond]
    have h1 : 1 ≤ genMeasure ctx.epCount st := by
      unfold genMeasure; omega
    obtain ⟨m, hm⟩ : ∃ m, genMeasure ctx.epCount st = m + 1 :=
      ⟨genMeasure ctx.epCount st - 1, by omega⟩
    rw [hm]
    simp only [genLoopFuel, if_pos hcond]
    apply genLoopFuel_congr
    · have hdec : genMeasure ctx.epCount (genStep ctx st) + 1 ≤
          genMeasure ctx.epCount st := by
        rcases genStep_measure ctx st hcond.2 with ⟨h1', h2'⟩ | ⟨h1', h2'⟩ <;>
          · unfold genMeasure
            rw [h1']
            omega
      omega
    · exact le_refl _
  · rw [if_neg hcond]
    cases hm : genMeasure ctx.epCount st with
    | zero => rfl
    | succ m => simp only [genLoopFuel, if_neg hcond]

/-- One loop iteration with an empty commercial pool adds no
commercial accounting: block counter, commercial seconds and the
commercial items are untouched. -/
theorem genStep_no_commercials (ctx : GenCtx) (st : GenState)
    (hc : ctx.commercials = []) :
    (genStep ctx st).blockCount = st.blockCount ∧
    (genStep ctx st).commercialSecs = st.commercialSecs ∧
    (genStep ctx st).items.filter (fun i => i.isCommercial) =
      st.items.filter (fun i => i.isCommercial) := by
  cases hA : activeIdx st.states with
  | nil => simp [genStep, hA]
  | cons a act =>
    simp only [genStep, hA]
    split
    · exact ⟨rfl, rfl, rfl⟩
    · unfold scheduleEpisode
      rw [insertBreaks_empty_pool ctx _ hc]
      refine ⟨rfl, rfl, ?_⟩
      simp [List.filter_append, ScheduledItem.isCommercial]

/-- Run-level version: with an empty commercial pool, the loop inserts
no breaks at all. -/
theorem genLoopFuel_no_commercials (ctx : GenCtx) (hc : ctx.commercials = []) :
    ∀ (fuel : Nat) (st : GenState),
      (genLoopFuel ctx fuel st).blockCount = st.blockCount ∧
      (genLoopFuel ctx fuel st).commercialSecs = st.commercialSecs ∧
      (genLoopFuel ctx fuel st).items.filter (fun i => i.isCommercial) =
        st.items.filter (fun i => i.isCommercial) := by
  intro fuel
  induction fuel with
  | zero => intro st; exact ⟨rfl, rfl, rfl⟩
  | succ f ih =>
    intro st
    simp only [genLoopFuel]
    split
    · obtain ⟨b1, b2, b3⟩ := genStep_no_commercials ctx st hc
      obtain ⟨a1, a2, a3⟩ := ih (genStep ctx st)
      exact ⟨by rw [a1, b1], by rw [a2, b2], by rw [a3, b3]⟩
    · exact ⟨rfl, rfl, rfl⟩

/-! ### Cursor advancement -/

/-- `posLt` is the lexicographic strict order on positions. -/
theorem posLt_iff_lex (a b : Int × Int) : posLt a b ↔ toLex a < toLex b := by
  rw [Prod.Lex.lt_iff]
  exact Iff.rfl

/-- `posLt` is transitive. -/
theorem posLt_trans {a b c : Int × Int} (h1 : posLt a b) (h2 : posLt b c) :
    posLt a c := by
  rw [posLt_iff_lex] at *
  exact lt_trans h1 h2

/-- A weak-then-strict chaining step. -/
theorem posLe_posLt_trans {a b c : Int × Int} (h1 : posLt a b ∨ a = b)
    (h2 : posLt b c) : posLt a c := by
  rcases h1 with h1 | rfl
  · exact posLt_trans h1 h2
  · exact h2

/-- A strict-then-weak chaining step. -/
theorem posLt_posLe_trans {a b c : Int × Int} (h1 : posLt a b)
    (h2 : posLt b c ∨ b = c) : posLt a c := by
  rcases h2 with h2 | rfl
  · exact posLt_trans h1 h2
  · exact h1

/-- The caller's `current_episode += 1` moves strictly forward. -/
theorem posLt_succ (s e : Int) : posLt (s, e) (s, e + 1) :=
  Or.inr ⟨rfl, by omega⟩

/-- `_get_next_episode` never rewinds the cursor: the post-call cursor
is either unchanged (episode found at the current position) or moved to
`(nextSeason, 1)` with a strictly larger season. -/
theorem getNextEpisode_cursor (sh : PlexShow) (s e : Int) :
    (getNextEpisode sh s e).2 = (s, e) ∨
      (s < (getNextEpisode sh s e).2.1 ∧ (getNextEpisode sh s e).2.2 = 1) := by
  unfold getNextEpisode
  split
  · exact Or.inl rfl
  · split
    · exact Or.inl rfl
    · rename_i ns hns
      have hlt : s < ns := by
        unfold getNextSeasonNumber at hns
        have := List.find?_some hns
        simpa using this
      split
      · exact Or.inr ⟨hlt, rfl⟩
      · exact Or.inr ⟨hlt, rfl⟩

/-- The per-show cursor invariant: along a run, the scheduled positions
strictly increase, every scheduled position lies strictly before the
final cursor (the cursor always points at the next episode to schedule,
never at one already scheduled), every scheduled position is at or
after the starting cursor, and the cursor never rewinds. -/
theorem cursorRun_invariant (sh : PlexShow) :
    ∀ (n : Nat) (s e : Int),
      List.Chain' posLt (cursorRun sh s e n).1 ∧
      (∀ p ∈ (cursorRun sh s e n).1, posLt p (cursorRun sh s e n).2) ∧
      (∀ p ∈ (cursorRun sh s e n).1, posLt (s, e) p ∨ (s, e) = p) ∧
      (posLt (s, e) (cursorRun sh s e n).2 ∨ (s, e) = (cursorRun sh s e n).2) := by
  intro n
  induction n with
  | zero =>
    intro s e
    exact ⟨List.chain'_nil, by simp [cursorRun], by simp [cursorRun], Or.inr rfl⟩
  | succ m ih =>
    intro s e
    have hsplit := getNextEpisode_cursor sh s e
    rcases hg : getNextEpisode sh s e with ⟨epi, s', e'⟩
    rw [hg] at hsplit
    simp only at hsplit
    have hstart : posLt (s, e) (s', e') ∨ (s, e) = (s', e') := by
      rcases hsplit with h | ⟨h1, h2⟩
      · exact Or.inr h.symm
      · exact Or.inl (Or.inl h1)
    cases epi with
    | none =>
      simp only [cursorRun, hg]
      exact ⟨List.chain'_nil, by simp, by simp, hstart⟩
    | some ep =>
      simp only [cursorRun, hg]
      obtain ⟨ih1, ih2, ih3, ih4⟩ := ih s' (e' + 1)
      have hnext : ∀ p ∈ (cursorRun sh s' (e' + 1) m).1, posLt (s', e') p := by
        intro p hp
        exact posLt_posLe_trans (posLt_succ s' e') (ih3 p hp)
      refine ⟨?_, ?_, ?_, ?_⟩
      · exact List.Chain'.cons' ih1 (fun y hy =>
          hnext y (List.mem_of_mem_head? hy))
      · intro p hp
        rcases List.mem_cons.mp hp with rfl | hp'
        · exact posLt_posLe_trans (posLt_succ s' e') ih4
        · exact ih2 p hp'
      · intro p hp
        rcases List.mem_cons.mp hp with rfl | hp'
        · exact hstart
        · exact Or.inl (posLe_posLt_trans hstart (hnext p hp'))
      · exact Or.inl (posLe_posLt_trans hstart
          (posLt_posLe_trans (posLt_succ s' e') ih4))

/-! ### `generate_playlist`: fatal and recoverable conditions -/

/-- Whether a playlist show resolves is independent of its cursor: the
"from start" reset cannot change which shows are skipped. -/
theorem resolveShow_reset (config : RTVConfig) (catalog : Catalog)
    (ps : PlaylistShow) :
    (resolveShow config catalog
        { ps with current_season := 1, current_episode := 1 } = none) ↔
      resolveShow config catalog ps = none := by
  simp only [resolveShow]
  cases hg : config.get_global_show ps.name with
  | none => simp
  | some gs =>
    cases hen : gs.enabled with
    | false => simp [hen]
    | true =>
      cases hf : catalog.findShow ps.name gs.library with
      | none => simp [hen, hf]
      | some sh => simp [hen, hf]

/-- `buildStates` is empty exactly when no playlist show resolves. -/
theorem buildStates_eq_nil_iff (config : RTVConfig) (catalog : Catalog)
    (shows : List PlaylistShow) :
    buildStates config catalog shows = [] ↔
      ∀ ps ∈ shows, resolveShow config catalog ps = none := by
  unfold buildStates
  rw [List.filterMap_eq_nil_iff]
  constructor
  · intro h ps hps
    obtain ⟨i, hi, hgi⟩ := List.mem_iff_getElem.mp hps
    have hmem : (i, ps) ∈ shows.enum :=
      List.mem_enum_iff_getElem?.mpr (by rw [List.getElem?_eq_getElem hi, hgi])
    have := h (i, ps) hmem
    simpa using this
  · intro h p hp
    have hmem : p.2 ∈ shows := by
      obtain ⟨i, a⟩ := p
      have := List.mem_enum_iff_getElem?.mp hp
      exact List.getElem?_mem this
    have := h p.2 hmem
    simp [this]

/-- Resetting every cursor to (1,1) does not change whether the show
list resolves to nothing. -/
theorem buildStates_reset_nil_iff (config : RTVConfig) (catalog : Catalog)
    (shows : List PlaylistShow) :
    buildStates config catalog (shows.map (fun ps =>
        { ps with current_season := 1, current_episode := 1 })) = [] ↔
      buildStates config catalog shows = [] := by
  rw [buildStates_eq_nil_iff, buildStates_eq_nil_iff]
  constructor
  · intro h ps hps
    have := h _ (List.mem_map_of_mem _ hps)
    exact (resolveShow_reset config catalog ps).mp this
  · intro h p hp
    obtain ⟨ps, hps, rfl⟩ := List.mem_map.mp hp
    exact (resolveShow_reset config catalog ps).mpr (h ps hps)

/-- `generate_playlist` raises exactly when the playlist's show list is
empty or none of its shows resolve. -/
theorem generatePlaylist_error_iff (config : RTVConfig)
    (playlist : PlaylistDefinition) (catalog : Catalog) (ec : Option Nat)
    (fs : Bool) (ch : Nat → Nat) (tg : Nat → Rat) :
    resultIsOk (generatePlaylist config playlist catalog ec fs ch tg).result
        = false ↔
      (playlist.shows = [] ∨
        ∀ ps ∈ playlist.shows, resolveShow config catalog ps = none) := by
  by_cases hempty : playlist.shows = []
  · simp only [generatePlaylist, if_pos hempty]
    simp [resultIsOk, hempty]
  · cases fs with
    | false =>
      simp only [generatePlaylist, if_neg hempty, Bool.false_eq_true,
        if_false]
      by_cases hbs : buildStates config catalog playlist.shows = []
      · rw [if_pos hbs]
        simp only [resultIsOk]
        constructor
        · intro _
          exact Or.inr ((buildStates_eq_nil_iff _ _ _).mp hbs)
        · intro _; trivial
      · rw [if_neg hbs]
        simp only [resultIsOk]
        constructor
        · intro h; exact absurd h (by simp)
        · rintro (h | h)
          · exact absurd h hempty
          · exact absurd ((buildStates_eq_nil_iff _ _ _).mpr h) hbs
    | true =>
      simp only [generatePlaylist, if_neg hempty, if_true]
      by_cases hbs : buildStates config catalog (playlist.shows.map (fun ps =>
          { ps with current_season := 1, current_episode := 1 })) = []
      · rw [if_pos hbs]
        simp only [resultIsOk]
        constructor
        · intro _
          exact Or.inr ((buildStates_eq_nil_iff _ _ _).mp
            ((buildStates_reset_nil_iff _ _ _).mp hbs))
        · intro _; trivial
      · rw [if_neg hbs]
        simp only [resultIsOk]
        constructor
        · intro h; exact absurd h (by simp)
        · rintro (h | h)
          · exact absurd h hempty
          · exact absurd ((buildStates_reset_nil_iff _ _ _).mpr
              ((buildStates_eq_nil_iff _ _ _).mpr h)) hbs

/-- Error atomicity without a reset: when generation raises and
`from_start` is false, the playlist records (and so every show's
persisted cursor) are returned unchanged. -/
theorem generatePlaylist_error_playlist (config : RTVConfig)
    (playlist : PlaylistDefinition) (catalog : Catalog) (ec : Option Nat)
    (ch : Nat → Nat) (tg : Nat → Rat)
    (h : resultIsOk
        (generatePlaylist config playlist catalog ec false ch tg).result
        = false) :
    (generatePlaylist config playlist catalog ec false ch tg).playlist
      = playlist := by
  by_cases hempty : playlist.shows = []
  · simp only [generatePlaylist, if_pos hempty]
  · simp only [generatePlaylist, if_neg hempty, Bool.false_eq_true,
      if_false] at *
    by_cases hbs : buildStates config catalog playlist.shows = []
    · rw [if_pos hbs]
    · rw [if_neg hbs] at h
      simp [resultIsOk] at h

/-- With an empty commercial pool, a successful generation contains no
commercial accounting at all: zero blocks and no commercial items. -/
theorem generatePlaylist_no_commercials (config : RTVConfig)
    (playlist : PlaylistDefinition) (catalog : Catalog) (ec : Option Nat)
    (fs : Bool) (ch : Nat → Nat) (tg : Nat → Rat)
    (hc : catalog.listCommercials config.commercials.library_name = [])
    (r : GenerationResult)
    (h : (generatePlaylist config playlist catalog ec fs ch tg).result
        = .ok r) :
    r.commercial_block_count = 0 ∧
    r.playlist_items.filter (fun i => i.isCommercial) = [] := by
  by_cases hempty : playlist.shows = []
  · rw [generatePlaylist.eq_def, if_pos hempty] at h
    exact absurd h (by simp)
  · cases fs with
    | false =>
      rw [generatePlaylist.eq_def, if_neg hempty] at h
      simp only [Bool.false_eq_true, if_false] at h
      by_cases hbs : buildStates config catalog playlist.shows = []
      · rw [if_pos hbs] at h
        exact absurd h (by simp)
      · rw [if_neg hbs] at h
        simp only [Except.ok.injEq] at h
        subst h
        have hcc : (if playlist.breaks.enabled then
            catalog.listCommercials config.commercials.library_name
            else []) = [] := by
          rw [hc]; exact ite_self []
        obtain ⟨hb, _, hi⟩ := genLoopFuel_no_commercials
          { commercials := if playlist.breaks.enabled then
              catalog.listCommercials config.commercials.library_name else [],
            breaks := playlist.breaks,
            commercialCfg := config.commercials,
            epCount := match ec with
              | some n => if n ≠ 0 then n else playlist.episodes_per_generation
              | none => playlist.episodes_per_generation,
            choice := ch, targets := tg } hcc
          (genMeasure (match ec with
              | some n => if n ≠ 0 then n else playlist.episodes_per_generation
              | none => playlist.episodes_per_generation) _) _
        exact ⟨hb, by simpa using hi⟩
    | true =>
      rw [generatePlaylist.eq_def, if_neg hempty] at h
      simp only [if_true] at h
      by_cases hbs : buildStates config catalog (playlist.shows.map (fun ps =>
          { ps with current_season := 1, current_episode := 1 })) = []
      · rw [if_pos hbs] at h
        exact absurd h (by simp)
      · rw [if_neg hbs] at h
        simp only [Except.ok.injEq] at h
        subst h
        have hcc : (if playlist.breaks.enabled then
            catalog.listCommercials config.commercials.library_name
            else []) = [] := by
          rw [hc]; exact ite_self []
        obtain ⟨hb, _, hi⟩ := genLoopFuel_no_commercials
          { commercials := if playlist.breaks.enabled then
              catalog.listCommercials config.commercials.library_name else [],
            breaks := playlist.breaks,
            commercialCfg := config.commercials,
            epCount := match ec with
              | some n => if n ≠ 0 then n else playlist.episodes_per_generation
              | none => playlist.episodes_per_generation,
            choice := ch, targets := tg } hcc
          (genMeasure (match ec with
              | some n => if n ≠ 0 then n else playlist.episodes_per_generation
              | none => playlist.episodes_per_generation) _) _
        exact ⟨hb, by simpa using hi⟩

/-! ### Break insertion: exact conditions -/

/-- When the gate condition fails, the insertion tail does nothing. -/
theorem insertBreaks_gate_closed (ctx : GenCtx) (st : GenState)
    (h : ¬ (ctx.commercials ≠ [] ∧ ctx.breaks.enabled = true ∧
      ctx.breaks.frequency ≤ st.sinceBreak ∧ st.episodesAdded < ctx.epCount)) :
    insertBreaks ctx st = st := by
  unfold insertBreaks
  rw [if_neg h]

/-- With breaks disabled the insertion tail does nothing. -/
theorem insertBreaks_disabled (ctx : GenCtx) (st : GenState)
    (h : ctx.breaks.enabled = false) : insertBreaks ctx st = st := by
  apply insertBreaks_gate_closed
  intro hc
  rw [h] at hc
  exact absurd hc.2.1 (by simp)

/-- On a non-empty pool the single-style branch always appends exactly
one commercial clip and counts one break. -/
theorem singleBreak_adds (ctx : GenCtx) (st : GenState)
    (hpool : ctx.commercials ≠ []) :
    (singleBreak ctx st).blockCount = st.blockCount + 1 ∧
    ∃ clip, (singleBreak ctx st).items = st.items ++ [.commercial clip] := by
  unfold singleBreak
  cases hp : ctx.commercials with
  | nil => exact absurd hp hpool
  | cons p ps =>
    simp only [hp, pickSingleCommercial]
    exact ⟨rfl, ⟨_, rfl⟩⟩

/-- On a non-empty pool and with a positive drawn target the loop runs
at least one iteration, so the block is non-empty. -/
theorem blockLoopRun_nonempty (clips : List MediaItem) (weights : List Rat)
    (target : Rat) (choice : Nat → Nat) (k : Nat) (hne : clips ≠ [])
    (htgt : 0 < target) :
    (blockLoopRun clips weights target choice k [] 0).1 ≠ [] := by
  intro hcontra
  unfold blockLoopRun at hcontra
  obtain ⟨t, h1, h2⟩ := blockLoopFuel_items_sum clips weights target choice
    (blockLoopMeasure target 0) k [] 0
  have hge := blockLoopFuel_ge_target clips weights target choice hne
    (blockLoopMeasure target 0) k [] 0 (le_refl _)
  rw [hcontra] at h1
  have ht : t = [] := by simpa using h1.symm
  rw [ht] at h2
  simp only [List.map_nil, List.sum_nil, add_zero] at h2
  rw [h2] at hge
  exact absurd hge (not_le.mpr htgt)

/-- `build_commercial_block_for_playlist` on a non-empty pool with a
positive target returns a non-empty block. -/
theorem buildForPlaylist_nonempty (commercials : List MediaItem)
    (bcfg : BreakConfig) (ccfg : CommercialConfig) (target : Rat)
    (choice : Nat → Nat) (k : Nat) (hne : commercials ≠ []) (htgt : 0 < target) :
    (buildCommercialBlockForPlaylist commercials bcfg ccfg target choice k).1.1
      ≠ [] := by
  cases commercials with
  | nil => exact absurd rfl hne
  | cons p ps =>
    simp only [buildCommercialBlockForPlaylist, weightedPool, List.map_cons]
    exact blockLoopRun_nonempty _ _ _ _ _ (by simp) htgt

/-- On a non-empty pool with a positive target the block branch counts
exactly one break and appends the block's clips. -/
theorem blockBreak_adds (ctx : GenCtx) (st : GenState)
    (hpool : ctx.commercials ≠ []) (htgt : 0 < ctx.targets st.k) :
    (blockBreak ctx st).blockCount = st.blockCount + 1 ∧
    ∃ items, items ≠ [] ∧
      (blockBreak ctx st).items = st.items ++ items.map .commercial := by
  simp only [blockBreak]
  have hne := buildForPlaylist_nonempty ctx.commercials ctx.breaks
    ctx.commercialCfg (ctx.targets st.k) ctx.choice st.k hpool htgt
  rw [if_pos hne]
  exact ⟨rfl, ⟨_, hne, rfl⟩⟩

/-- Single style, non-empty pool: a break is counted after this episode
exactly when the gate condition (frequency reached, target count not yet
reached) holds. -/
theorem insertBreaks_single_iff (ctx : GenCtx) (st : GenState)
    (hstyle : ctx.breaks.style = "single") (hpool : ctx.commercials ≠ []) :
    ((insertBreaks ctx st).blockCount = st.blockCount + 1) ↔
      (ctx.breaks.enabled = true ∧ ctx.breaks.frequency ≤ st.sinceBreak ∧
        st.episodesAdded < ctx.epCount) := by
  by_cases hcond : ctx.commercials ≠ [] ∧ ctx.breaks.enabled = true ∧
      ctx.breaks.frequency ≤ st.sinceBreak ∧ st.episodesAdded < ctx.epCount
  · unfold insertBreaks
    rw [if_pos hcond, if_pos hstyle]
    constructor
    · intro _; exact hcond.2
    · intro _; exact (singleBreak_adds ctx st hpool).1
  · rw [insertBreaks_gate_closed ctx st hcond]
    constructor
    · intro h1; omega
    · intro h; exact absurd ⟨hpool, h⟩ hcond

/-- Block style, non-empty pool, positive drawn target: a break is
counted after this episode exactly when the gate condition holds. -/
theorem insertBreaks_block_iff (ctx : GenCtx) (st : GenState)
    (hstyle : ctx.breaks.style = "block") (hpool : ctx.commercials ≠ [])
    (htgt : 0 < ctx.targets st.k) :
    ((insertBreaks ctx st).blockCount = st.blockCount + 1) ↔
      (ctx.breaks.enabled = true ∧ ctx.breaks.frequency ≤ st.sinceBreak ∧
        st.episodesAdded < ctx.epCount) := by
  by_cases hcond : ctx.commercials ≠ [] ∧ ctx.breaks.enabled = true ∧
      ctx.breaks.frequency ≤ st.sinceBreak ∧ st.episodesAdded < ctx.epCount
  · unfold insertBreaks
    rw [if_pos hcond]
    rw [if_neg (by rw [hstyle]; decide), if_pos hstyle]
    constructor
    · intro _; exact hcond.2
    · intro _; exact (blockBreak_adds ctx st hpool htgt).1
  · rw [insertBreaks_gate_closed ctx st hcond]
    constructor
    · intro h1; omega
    · intro h; exact absurd ⟨hpool, h⟩ hcond

/-- Whenever the gate condition holds, the episodes-since-last-break
counter is reset — for every style, including `"disabled"`. -/
theorem insertBreaks_resets (ctx : GenCtx) (st : GenState)
    (h : ctx.commercials ≠ [] ∧ ctx.breaks.enabled = true ∧
      ctx.breaks.frequency ≤ st.sinceBreak ∧ st.episodesAdded < ctx.epCount) :
    (insertBreaks ctx st).sinceBreak = 0 := by
  unfold insertBreaks
  rw [if_pos h]

/-! ### Loop-body characterisations used by the claims -/

/-- When the selected show yields no episode, the step marks it
exhausted, appends its name to `dropped_shows`, leaves the episode
count and the output items alone, and leaves the rotation counter net
unchanged (so the next active show fills the same turn). -/
theorem genStep_exhaust (ctx : GenCtx) (st : GenState)
    (hact : activeIdx st.states ≠ [])
    (hr : (getNextEpisode (selShow st).plexShow (selShow st).current_season
      (selShow st).current_episode).1 = none) :
    (genStep ctx st).episodesAdded = st.episodesAdded ∧
    (genStep ctx st).rotation = st.rotation ∧
    (genStep ctx st).dropped = st.dropped ++ [(selShow st).name] ∧
    ((genStep ctx st).states.getD (selIdx st) default).exhausted = true ∧
    (genStep ctx st).items = st.items := by
  cases hA : activeIdx st.states with
  | nil => exact absurd hA hact
  | cons a act =>
    have hsimem : (a :: act).getD (st.rotation % (a :: act).length) 0 ∈
        activeIdx st.states := by
      rw [hA]; exact activeIdx_getD_mem _ _ (by simp)
    obtain ⟨hsilt, _⟩ := (activeIdx_mem st.states _).mp hsimem
    simp only [selShow, selIdx, hA] at hr ⊢
    simp only [genStep, hA, hr]
    obtain ⟨e1, e2, e3, e4, e5⟩ := exhaustShow_proj st _ _ _ _
    refine ⟨e1, e2, e4, ?_, e5⟩
    rw [e3]
    have hlt2 : (a :: act).getD (st.rotation % (a :: act).length) 0 <
        (st.states.set ((a :: act).getD (st.rotation % (a :: act).length) 0)
          { st.states.getD ((a :: act).getD (st.rotation % (a :: act).length) 0)
              default with
            current_season := (getNextEpisode (st.states.getD ((a :: act).getD
              (st.rotation % (a :: act).length) 0) default).plexShow
              (st.states.getD ((a :: act).getD (st.rotation % (a :: act).length)
                0) default).current_season
              (st.states.getD ((a :: act).getD (st.rotation % (a :: act).length)
                0) default).current_episode).2.1,
            current_episode := (getNextEpisode (st.states.getD ((a :: act).getD
              (st.rotation % (a :: act).length) 0) default).plexShow
              (st.states.getD ((a :: act).getD (st.rotation % (a :: act).length)
                0) default).current_season
              (st.states.getD ((a :: act).getD (st.rotation % (a :: act).length)
                0) default).current_episode).2.2,
            exhausted := true }).length := by
      rw [List.length_set]
      exact hsilt
    rw [List.getD_eq_getElem _ _ hlt2, List.getElem_set_self _]

/-- With breaks disabled, a scheduled episode contributes exactly its
extracted duration to the running total — no default is applied. -/
theorem genStep_episode_total (ctx : GenCtx) (st : GenState)
    (hact : activeIdx st.states ≠ []) (ep : PlexEpisode)
    (hr : (getNextEpisode (selShow st).plexShow (selShow st).current_season
      (selShow st).current_episode).1 = some ep)
    (hen : ctx.breaks.enabled = false) :
    (genStep ctx st).totalSecs = st.totalSecs + getDurationSecs ep.duration := by
  cases hA : activeIdx st.states with
  | nil => exact absurd hA hact
  | cons a act =>
    simp only [selShow, selIdx, hA] at hr
    simp only [genStep, hA, hr]
    unfold scheduleEpisode
    rw [insertBreaks_disabled ctx _ hen]

/-- The clip and history returned by `pick_single_commercial` on a
non-empty pool: the clip at the picked index, and the picked index
pushed onto the bounded history. -/
theorem pickSingleCommercial_spec (pool : List MediaItem) (hist : List Nat)
    (g c : Nat) (hne : pool ≠ []) :
    (pickSingleCommercial pool hist g c).1.1 =
      some (pool.getD (pickIndex pool.length hist c) ⟨none, ""⟩) ∧
    (pickSingleCommercial pool hist g c).2 =
      dequeAppend hist (pickIndex pool.length hist c) g := by
  cases pool with
  | nil => exact absurd rfl hne
  | cons p ps => exact ⟨rfl, rfl⟩

/-- A picked clip with unknown or non-positive duration is accounted at
the 30-second default. -/
theorem pickSingleCommercial_default_duration (pool : List MediaItem)
    (hist : List Nat) (g c : Nat) (hne : pool ≠ [])
    (hd : getDurationSecs ((pool.getD (pickIndex pool.length hist c)
      ⟨none, ""⟩).duration) ≤ 0) :
    (pickSingleCommercial pool hist g c).1.2 = 30 := by
  cases pool with
  | nil => exact absurd rfl hne
  | cons p ps =>
    simp only [pickSingleCommercial]
    rw [if_pos hd]

/-- A block clip with unknown or non-positive duration is accounted at
the 30-second default. -/
theorem adjustedDuration_default (m : MediaItem)
    (h : getDurationSecs m.duration ≤ 0) : adjustedDuration m = 30 := by
  simp only [adjustedDuration]
  rw [if_pos h]

/-- A block clip with positive duration is accounted at its own
duration. -/
theorem adjustedDuration_own (m : MediaItem)
    (h : ¬ getDurationSecs m.duration ≤ 0) :
    adjustedDuration m = getDurationSecs m.duration := by
  simp only [adjustedDuration]
  rw [if_neg h]

/-- Every iteration of the block loop adds a strictly positive
duration. -/
theorem adjustedDuration_pos (m : MediaItem) : 0 < adjustedDuration m :=
  lt_of_lt_of_le (by norm_num) (adjustedDuration_ge_milli m)

/-- The block total is exactly the sum of the adjusted durations of the
returned clips. -/
theorem buildForPlaylist_total_eq_sum (commercials : List MediaItem)
    (bcfg : BreakConfig) (ccfg : CommercialConfig) (target : Rat)
    (choice : Nat → Nat) (k : Nat) (hne : commercials ≠ []) :
    (buildCommercialBlockForPlaylist commercials bcfg ccfg target choice k).1.2 =
      (((buildCommercialBlockForPlaylist commercials bcfg ccfg target choice
        k).1.1).map adjustedDuration).sum := by
  cases commercials with
  | nil => exact absurd rfl hne
  | cons p ps =>
    simp only [buildCommercialBlockForPlaylist, weightedPool, List.map_cons]
    unfold blockLoopRun
    obtain ⟨t, h1, h2⟩ := blockLoopFuel_items_sum _ _ target choice
      (blockLoopMeasure target 0) k [] 0
    rw [h1, h2]
    simp

/-- The no-repeat property in its direct form: starting from the empty
history, two picks made fewer than `min_gap` steps apart differ
whenever the pool is strictly larger than `min_gap`. -/
theorem pickIndexRun_no_repeat (n g : Nat) (hg : g < n) (choices : List Nat)
    (i j : Nat) (hij : i < j) (hwin : j - i < g)
    (hj : j < (pickIndexRun n g [] choices).length)
    (hi : i < (pickIndexRun n g [] choices).length) :
    (pickIndexRun n g [] choices)[i] ≠ (pickIndexRun n g [] choices)[j] := by
  have h0 : lastN g ([] : List Nat) = [] := by simp [lastN]
  have hrw : ([] : List Nat) ++ pickIndexRun n g (lastN g []) choices =
      pickIndexRun n g [] choices := by
    rw [h0, List.nil_append]
  have haux := pickIndexRun_no_repeat_aux n g hg choices [] i j hij hwin
    (by simp) (by simpa [hrw] using hj) (by simpa [hrw] using hi)
  simpa [hrw] using haux

/-! ## Claim theorems -/

/-- C1: round-robin selection redistributes turns on exhaustion without
skipping. When the selected show yields no episode it is marked
exhausted, its name is appended to `droppedShows`, no episode is
counted, and the rotation counter is net unchanged (decremented by one
after having been advanced), so the next still-active show fills the
same turn; consequently, for two shows with episode counts 10 and 2 and
`targetEpisodeCount = 6` the result has
`episodesByShow = [A: 4, B: 2]` and `droppedShows = ["B"]`. -/
theorem C1_exhaustion_redistribution :
    (∀ (ctx : GenCtx) (st : GenState), activeIdx st.states ≠ [] →
      (getNextEpisode (selShow st).plexShow (selShow st).current_season
        (selShow st).current_episode).1 = none →
      (genStep ctx st).episodesAdded = st.episodesAdded ∧
      (genStep ctx st).rotation = st.rotation ∧
      (genStep ctx st).dropped = st.dropped ++ [(selShow st).name] ∧
      ((genStep ctx st).states.getD (selIdx st) default).exhausted = true) ∧
    (outC1.result.toOption.map (fun r =>
        (r.episodes_by_show, r.dropped_shows)) =
      some ([("A", 4), ("B", 2)], ["B"])) := by
  constructor
  · intro ctx st hact hr
    obtain ⟨h1, h2, h3, h4, _⟩ := genStep_exhaust ctx st hact hr
    exact ⟨h1, h2, h3, h4⟩
  · with_unfolding_all decide

/-- C1 witness: the mechanism instantiated on show B sitting one past
its last episode. -/
theorem C1_exhaustion_redistribution_witness :
    (genStep ctxPlain (initialState [stateB3])).episodesAdded = 0 ∧
    (genStep ctxPlain (initialState [stateB3])).rotation = 0 ∧
    (genStep ctxPlain (initialState [stateB3])).dropped = ["B"] ∧
    ((genStep ctxPlain (initialState [stateB3])).states.getD
      (selIdx (initialState [stateB3])) default).exhausted = true := by
  obtain ⟨h1, h2, h3, h4⟩ := C1_exhaustion_redistribution.1 ctxPlain
    (initialState [stateB3]) (by with_unfolding_all decide)
    (by with_unfolding_all decide)
  with_unfolding_all exact ⟨h1, h2, h3, h4⟩

/-- C2 counterexample: with breaks enabled, a non-empty pool, and the
valid style `"disabled"`, the gate condition holds after the first
scheduled episode (the counter is even reset, proving the gate was
entered) and yet no break is inserted — refuting "a break is inserted
exactly when the count since the last break reaches the frequency and
the target has not been reached". -/
theorem C2_break_placement_cex :
    comPool ≠ [] ∧
    breaksStyleDisabled.enabled = true ∧
    (genStep ctxDisabled (initialState [stateA])).episodesAdded = 1 ∧
    breaksStyleDisabled.frequency ≤ 1 ∧ (1 : Nat) < ctxDisabled.epCount ∧
    (genStep ctxDisabled (initialState [stateA])).sinceBreak = 0 ∧
    (genStep ctxDisabled (initialState [stateA])).blockCount = 0 ∧
    (genStep ctxDisabled (initialState [stateA])).items.filter
      (fun i => i.isCommercial) = [] ∧
    (outC2d.result.toOption.map (fun r => r.commercial_block_count))
      = some 0 := by
  with_unfolding_all decide

/-- C2 (amended): with breaks enabled, a non-empty commercial pool,
and a break style that inserts material (`"single"`, or `"block"` with
a positive drawn target), a break is counted after a scheduled episode
exactly when episodes-since-last-break ≥ frequency and the scheduled
count has not yet reached the target (for style `"disabled"` the gate
still resets the counter but inserts nothing); in particular with
`frequency = 2` and `targetEpisodeCount = 6`, exactly 2 breaks are
inserted, after episodes 2 and 4 and never after the final episode. -/
theorem C2_break_placement :
    (∀ (ctx : GenCtx) (st : GenState), ctx.commercials ≠ [] →
      ctx.breaks.style = "single" →
      (((insertBreaks ctx st).blockCount = st.blockCount + 1) ↔
        (ctx.breaks.enabled = true ∧ ctx.breaks.frequency ≤ st.sinceBreak ∧
          st.episodesAdded < ctx.epCount))) ∧
    (∀ (ctx : GenCtx) (st : GenState), ctx.commercials ≠ [] →
      ctx.breaks.style = "block" → 0 < ctx.targets st.k →
      (((insertBreaks ctx st).blockCount = st.blockCount + 1) ↔
        (ctx.breaks.enabled = true ∧ ctx.breaks.frequency ≤ st.sinceBreak ∧
          st.episodesAdded < ctx.epCount))) ∧
    (∀ (ctx : GenCtx) (st : GenState),
      ¬ (ctx.commercials ≠ [] ∧ ctx.breaks.enabled = true ∧
        ctx.breaks.frequency ≤ st.sinceBreak ∧
        st.episodesAdded < ctx.epCount) →
      insertBreaks ctx st = st) ∧
    (outC2.result.toOption.map (fun r =>
        (r.playlist_items.map ScheduledItem.isCommercial,
          r.commercial_block_count)) =
      some ([false, false, true, false, false, true, false, false], 2)) := by
  refine ⟨?_, ?_, insertBreaks_gate_closed, ?_⟩
  · intro ctx st hpool hstyle
    exact insertBreaks_single_iff ctx st hstyle hpool
  · intro ctx st hpool hstyle htgt
    exact insertBreaks_block_iff ctx st hstyle hpool htgt
  · with_unfolding_all decide

/-- C2 witness: the single-style break condition instantiated right
after a first episode with `frequency = 1`. -/
theorem C2_break_placement_witness :
    (insertBreaks ⟨comPool, breaksSingle 1, ccfgBasic, 2, fun _ => 0,
        fun _ => 30⟩
      { initialState [stateA] with sinceBreak := 1, episodesAdded := 1
        }).blockCount =
      (initialState [stateA] : GenState).blockCount + 1 := by
  apply (C2_break_placement.1 ⟨comPool, breaksSingle 1, ccfgBasic, 2,
    fun _ => 0, fun _ => 30⟩
    { initialState [stateA] with sinceBreak := 1, episodesAdded := 1 }
    (by with_unfolding_all decide) rfl).mpr
  refine ⟨rfl, ?_, ?_⟩ <;> with_unfolding_all decide

/-- C3: across any sequence of `pick_single_commercial` calls on a
fixed pool (the deque capacity being `min_gap`), if the pool is
strictly larger than `min_gap` then no pool index is returned twice
within any window of `min_gap` consecutive picks; and on an empty pool
the function returns `(none, 0)` with the history untouched. -/
theorem C3_no_repeat_window :
    (∀ (hist : List Nat) (g c : Nat),
      pickSingleCommercial [] hist g c = ((none, 0), hist)) ∧
    (∀ (pool : List MediaItem) (hist : List Nat) (g c : Nat), pool ≠ [] →
      (pickSingleCommercial pool hist g c).1.1 =
        some (pool.getD (pickIndex pool.length hist c) ⟨none, ""⟩) ∧
      (pickSingleCommercial pool hist g c).2 =
        dequeAppend hist (pickIndex pool.length hist c) g) ∧
    (∀ (n g : Nat), g < n → ∀ (choices : List Nat) (i j : Nat), i < j →
      j - i < g →
      ∀ (hj : j < (pickIndexRun n g [] choices).length)
        (hi : i < (pickIndexRun n g [] choices).length),
        (pickIndexRun n g [] choices)[i] ≠ (pickIndexRun n g [] choices)[j])
    := by
  refine ⟨fun hist g c => rfl, pickSingleCommercial_spec, ?_⟩
  intro n g hg choices i j hij hwin hj hi
  exact pickIndexRun_no_repeat n g hg choices i j hij hwin hj hi

/-- C3 witness: a pool of 3 with a window of 2 — the first two picks of
a concrete run differ. -/
theorem C3_no_repeat_window_witness :
    (pickIndexRun 3 2 [] [0, 0, 0, 0]).get ⟨0, by with_unfolding_all decide⟩ ≠
      (pickIndexRun 3 2 [] [0, 0, 0, 0]).get ⟨1, by with_unfolding_all decide⟩ :=
  C3_no_repeat_window.2.2 3 2 (by decide) [0, 0, 0, 0] 0 1 (by decide)
    (by decide) (by with_unfolding_all decide) (by with_unfolding_all decide)

/-- C4: for every non-empty commercial pool in which at least one clip
has positive duration, the block builder returns a total of at least
`durationRange.min` — the loop only stops once the total reaches the
drawn target, which is itself at least the minimum. -/
theorem C4_block_minimum (pool : List MediaItem) (bcfg : BreakConfig)
    (ccfg : CommercialConfig) (target : Rat) (choice : Nat → Nat) (k : Nat)
    (hne : pool ≠ [])
    (hpos : ∃ clip ∈ pool, 0 < getDurationSecs clip.duration)
    (htgt : (bcfg.block_duration.min : Rat) ≤ target) :
    (bcfg.block_duration.min : Rat) ≤
      (buildCommercialBlockForPlaylist pool bcfg ccfg target choice k).1.2 :=
  le_trans htgt (buildForPlaylist_total_ge pool bcfg ccfg target choice k hne)

/-- C4 witness: a single 30-second clip with a target of 30 seconds. -/
theorem C4_block_minimum_witness :
    (((breaksSingle 2).block_duration.min : Int) : Rat) ≤
      (buildCommercialBlockForPlaylist comPool (breaksSingle 2) ccfgBasic 30
        (fun _ => 0) 0).1.2 :=
  C4_block_minimum comPool (breaksSingle 2) ccfgBasic 30 (fun _ => 0) 0
    (by decide)
    ⟨⟨some 30000, "generic"⟩, by decide, by with_unfolding_all decide⟩
    (by with_unfolding_all decide)

/-- C5 counterexample: a scheduled episode whose duration attribute is
absent contributes 0 — not 30 — to the runtime total: the 30-second
default is never applied to episodes. -/
theorem C5_default_duration_cex :
    (outC5.result.toOption.map (fun r =>
        (r.playlist_items, r.total_runtime_secs))) =
      some ([ScheduledItem.episode "N" 1 ⟨1, none⟩], 0) ∧
    ¬ ((0 : Rat) = 30) := by
  constructor
  · with_unfolding_all decide
  · norm_num

/-- C5 (amended): the 30-second default applies only to commercial
clips — a picked single clip and every block clip with absent or
non-positive duration is accounted at 30 seconds (the block total being
the sum of those per-clip durations) — while a scheduled episode always
contributes exactly its extracted duration, which is 0 when the
attribute is absent or zero. -/
theorem C5_default_duration :
    (∀ (pool : List MediaItem) (hist : List Nat) (g c : Nat), pool ≠ [] →
      getDurationSecs ((pool.getD (pickIndex pool.length hist c)
        ⟨none, ""⟩).duration) ≤ 0 →
      (pickSingleCommercial pool hist g c).1.2 = 30) ∧
    (∀ m : MediaItem, getDurationSecs m.duration ≤ 0 →
      adjustedDuration m = 30) ∧
    (∀ (pool : List MediaItem) (bcfg : BreakConfig) (ccfg : CommercialConfig)
      (target : Rat) (choice : Nat → Nat) (k : Nat), pool ≠ [] →
      (buildCommercialBlockForPlaylist pool bcfg ccfg target choice k).1.2 =
        (((buildCommercialBlockForPlaylist pool bcfg ccfg target choice
          k).1.1).map adjustedDuration).sum) ∧
    (∀ (ctx : GenCtx) (st : GenState) (ep : PlexEpisode),
      activeIdx st.states ≠ [] →
      (getNextEpisode (selShow st).plexShow (selShow st).current_season
        (selShow st).current_episode).1 = some ep →
      ctx.breaks.enabled = false →
      (genStep ctx st).totalSecs = st.totalSecs + getDurationSecs ep.duration) ∧
    (getDurationSecs none = 0 ∧ getDurationSecs (some 0) = 0) := by
  refine ⟨pickSingleCommercial_default_duration, adjustedDuration_default,
    buildForPlaylist_total_eq_sum, ?_, by norm_num [getDurationSecs]⟩
  intro ctx st ep hact hr hen
  exact genStep_episode_total ctx st hact ep hr hen

/-- C5 witness: a duration-less clip picked from a one-clip pool is
accounted at 30 seconds, and the duration-less episode of show N
contributes exactly its extracted (zero) duration. -/
theorem C5_default_duration_witness :
    (pickSingleCommercial [⟨none, "x"⟩] [] 50 0).1.2 = 30 ∧
    (genStep ctxPlain (initialState [stateA])).totalSecs =
      (initialState [stateA] : GenState).totalSecs +
        getDurationSecs (some 500) := by
  constructor
  · exact C5_default_duration.1 [⟨none, "x"⟩] [] 50 0 (by decide)
      (by with_unfolding_all decide)
  · exact C5_default_duration.2.2.2.1 ctxPlain (initialState [stateA])
      ⟨1, some 500⟩ (by with_unfolding_all decide)
      (by with_unfolding_all decide) rfl

/-- C6: generation fails exactly when the playlist's show list is empty
or none of its shows resolve (missing from the global pool, disabled,
or absent from the catalog); every other anomaly is recoverable — a
per-show miss skips that show, mid-run exhaustion is only recorded in
`droppedShows`, and an empty commercial pool with breaks enabled yields
a playlist with zero breaks rather than an error. -/
theorem C6_error_taxonomy :
    (∀ (config : RTVConfig) (playlist : PlaylistDefinition) (catalog : Catalog)
      (ec : Option Nat) (fs : Bool) (ch : Nat → Nat) (tg : Nat → Rat),
      resultIsOk (generatePlaylist config playlist catalog ec fs ch tg).result
          = false ↔
        (playlist.shows = [] ∨
          ∀ ps ∈ playlist.shows, resolveShow config catalog ps = none)) ∧
    (∀ (config : RTVConfig) (playlist : PlaylistDefinition) (catalog : Catalog)
      (ec : Option Nat) (fs : Bool) (ch : Nat → Nat) (tg : Nat → Rat)
      (r : GenerationResult),
      catalog.listCommercials config.commercials.library_name = [] →
      (generatePlaylist config playlist catalog ec fs ch tg).result = .ok r →
      r.commercial_block_count = 0 ∧
      r.playlist_items.filter (fun i => i.isCommercial) = []) ∧
    (resultIsOk outSkip.result = true ∧
      outSkip.result.toOption.map (fun r => r.episodes_by_show) =
        some [("A", 2)]) ∧
    (resultIsOk outC1.result = true ∧
      outC1.result.toOption.map (fun r => r.dropped_shows) = some ["B"]) ∧
    (resultIsOk outNoComs.result = true ∧
      outNoComs.result.toOption.map (fun r =>
        (r.commercial_block_count, r.playlist_items.length)) = some (0, 3)) ∧
    (resultIsOk outEmpty.result = false ∧
      resultIsOk outUnresolved.result = false) := by
  refine ⟨generatePlaylist_error_iff, ?_, ?_, ?_, ?_, ?_⟩
  · intro config playlist catalog ec fs ch tg r hc h
    exact generatePlaylist_no_commercials config playlist catalog ec fs ch tg
      hc r h
  all_goals with_unfolding_all decide

/-- C6 witness: the empty-pool guarantee instantiated on a run with
breaks enabled every episode and no commercials in the catalog. -/
theorem C6_error_taxonomy_witness :
    (outNoComs.result.toOption.getD default).commercial_block_count = 0 ∧
    (outNoComs.result.toOption.getD default).playlist_items.filter
      (fun i => i.isCommercial) = [] := by
  exact C6_error_taxonomy.2.1 cfgAll (mkPlaylist [⟨"A", 1, 1⟩] (breaksSingle 1))
    catNoComs (some 3) false (fun _ => 0) (fun _ => 30)
    (outNoComs.result.toOption.getD default) rfl
    (by with_unfolding_all decide)

/-- C7: cursor advancement round-trips with the catalog: scheduling 3
episodes of a 5-episode season from (1,1) persists the cursor at (1,4);
a cursor past the end of season 1 moves to (2,1), schedules that
episode, and persists (2,2); and in general the positions scheduled by
a cursor run strictly increase while the cursor stays strictly past
every scheduled position — it always points at the next episode to
schedule, never at one already scheduled. -/
theorem C7_cursor_roundtrip :
    (outC7a.playlist.shows = [⟨"F", 1, 4⟩] ∧
      outC7a.result.toOption.map (fun r => r.show_positions) =
        some [("F", 1, 4)]) ∧
    (outC7b.result.toOption.map (fun r => r.playlist_items) =
        some [.episode "G" 2 ⟨1, some 500⟩] ∧
      outC7b.playlist.shows = [⟨"G", 2, 2⟩]) ∧
    (∀ (sh : PlexShow) (s e : Int) (n : Nat),
      List.Chain' posLt (cursorRun sh s e n).1 ∧
      ∀ p ∈ (cursorRun sh s e n).1, posLt p (cursorRun sh s e n).2) := by
  refine ⟨?_, ?_, ?_⟩
  · constructor <;> with_unfolding_all decide
  · constructor <;> with_unfolding_all decide
  · intro sh s e n
    exact ⟨(cursorRun_invariant sh n s e).1, (cursorRun_invariant sh n s e).2.1⟩

/-- C7 witness: two scheduled episodes of show F from (1,1) — the trace
is strictly increasing and the final cursor lies past the first
scheduled position. -/
theorem C7_cursor_roundtrip_witness :
    List.Chain' posLt (cursorRun shF 1 1 2).1 ∧
    posLt (1, 1) (cursorRun shF 1 1 2).2 :=
  ⟨(C7_cursor_roundtrip.2.2 shF 1 1 2).1,
    (C7_cursor_roundtrip.2.2 shF 1 1 2).2 (1, 1) (by with_unfolding_all decide)⟩

/-! ### The pre-round-robin sort, by policy -/

/-- The premiere-year key order, translated to the shows' year fields:
unknown-year shows sort after every known year, known years ascend. -/
theorem yearKey_le_iff (a b : ShowState) :
    keyRel yearKey a b ↔
      ((a.year = none → b.year = none) ∧
        ∀ x y, a.year = some x → b.year = some y → x ≤ y) := by
  unfold keyRel yearKey
  rcases ha : a.year with _ | x <;> rcases hb : b.year with _ | y <;>
    simp [ha, hb, Prod.Lex.le_iff]

/-- The `"premiere_year"` branch of the sort dispatch. -/
theorem sortStates_year (l : List ShowState) :
    sortStates "premiere_year" l = sortByKey yearKey l := by
  unfold sortStates
  rw [if_pos rfl]

/-- The `"premiere_year_desc"` branch of the sort dispatch. -/
theorem sortStates_yearDesc (l : List ShowState) :
    sortStates "premiere_year_desc" l = sortByKey yearKeyDesc l := by
  unfold sortStates
  rw [if_neg (by decide), if_pos rfl]

/-- The `"alphabetical"` branch of the sort dispatch. -/
theorem sortStates_alpha (l : List ShowState) :
    sortStates "alphabetical" l = sortByKey alphaKey l := by
  unfold sortStates
  rw [if_neg (by decide), if_neg (by decide), if_pos rfl]

/-- Applying the pre-round-robin sort twice equals applying it once,
for every `sort_by` policy. -/
theorem sortStates_idem (sb : String) (l : List ShowState) :
    sortStates sb (sortStates sb l) = sortStates sb l := by
  unfold sortStates
  by_cases h1 : sb = "premiere_year"
  · rw [if_pos h1, if_pos h1]
    exact sortByKey_idem yearKey l
  · rw [if_neg h1, if_neg h1]
    by_cases h2 : sb = "premiere_year_desc"
    · rw [if_pos h2, if_pos h2]
      exact sortByKey_idem yearKeyDesc l
    · rw [if_neg h2, if_neg h2]
      by_cases h3 : sb = "alphabetical"
      · rw [if_pos h3, if_pos h3]
        exact sortByKey_idem alphaKey l
      · rw [if_neg h3, if_neg h3]

/-- The sorted list is a permutation of the input, for every policy. -/
theorem sortStates_perm (sb : String) (l : List ShowState) :
    (sortStates sb l).Perm l := by
  unfold sortStates
  by_cases h1 : sb = "premiere_year"
  · rw [if_pos h1]
    exact sortByKey_perm yearKey l
  · rw [if_neg h1]
    by_cases h2 : sb = "premiere_year_desc"
    · rw [if_pos h2]
      exact sortByKey_perm yearKeyDesc l
    · rw [if_neg h2]
      by_cases h3 : sb = "alphabetical"
      · rw [if_pos h3]
        exact sortByKey_perm alphaKey l
      · rw [if_neg h3]

/-- Sorting by premiere year yields a list ascending by year with
unknown-year shows last. -/
theorem sortStates_year_sorted (l : List ShowState) :
    (sortStates "premiere_year" l).Sorted (fun a b =>
      (a.year = none → b.year = none) ∧
      ∀ x y, a.year = some x → b.year = some y → x ≤ y) := by
  rw [sortStates_year]
  exact (sortByKey_sorted yearKey l).imp (fun h => (yearKey_le_iff _ _).mp h)

/-- C8: the pre-round-robin sort is deterministic and stable for every
sort policy: applying it twice to the same input yields the same show
order as applying it once, the output is always a permutation of the
input, `premiere_year` orders shows by ascending year with unknown-year
shows last, for every key value the sublist of shows with that key
keeps its original relative order (stability, for each of the three
keyed policies), and the unkeyed `config_order` policy leaves the list
untouched. -/
theorem C8_sort_stable_deterministic :
    (∀ (sb : String) (l : List ShowState),
      sortStates sb (sortStates sb l) = sortStates sb l) ∧
    (∀ (sb : String) (l : List ShowState), (sortStates sb l).Perm l) ∧
    (∀ l : List ShowState, (sortStates "premiere_year" l).Sorted (fun a b =>
      (a.year = none → b.year = none) ∧
      ∀ x y, a.year = some x → b.year = some y → x ≤ y)) ∧
    (∀ (l : List ShowState) (k₀ : Nat ×ₗ Int),
      ((sortStates "premiere_year" l).filter
          (fun x => decide (yearKey x = k₀)) =
        l.filter (fun x => decide (yearKey x = k₀))) ∧
      ((sortStates "premiere_year_desc" l).filter
          (fun x => decide (yearKeyDesc x = k₀)) =
        l.filter (fun x => decide (yearKeyDesc x = k₀)))) ∧
    (∀ (l : List ShowState) (s₀ : String),
      (sortStates "alphabetical" l).filter
          (fun x => decide (alphaKey x = s₀)) =
        l.filter (fun x => decide (alphaKey x = s₀))) ∧
    (∀ l : List ShowState, sortStates "config_order" l = l) := by
  refine ⟨sortStates_idem, sortStates_perm, sortStates_year_sorted, ?_, ?_, ?_⟩
  · intro l k₀
    constructor
    · rw [sortStates_year]
      exact sortByKey_stable yearKey l k₀
    · rw [sortStates_yearDesc]
      exact sortByKey_stable yearKeyDesc l k₀
  · intro l s₀
    rw [sortStates_alpha]
    have h := sortByKey_stable alphaKey l s₀
    convert h using 2
    all_goals funext x
    all_goals exact decide_eq_decide.mpr Iff.rfl
  · intro l
    unfold sortStates
    rw [if_neg (by decide), if_neg (by decide), if_neg (by decide)]

/-- C8 witness: the premiere-year sort of a concrete two-show list (one
show with an unknown year) is unchanged by a second pass. -/
theorem C8_sort_stable_deterministic_witness :
    sortStates "premiere_year" (sortStates "premiere_year"
        [mkState "X" none, mkState "Y" (some 5)]) =
      sortStates "premiere_year" [mkState "X" none, mkState "Y" (some 5)] :=
  C8_sort_stable_deterministic.1 "premiere_year"
    [mkState "X" none, mkState "Y" (some 5)]

/-- C9: error atomicity for cursors when no reset is requested — when
generation raises with `from_start = false`, the returned playlist
records, and with them every show's persisted `current_season` and
`current_episode`, are exactly the input ones: cursor writeback only
happens after the generation loop completes. -/
theorem C9_cursor_atomicity (config : RTVConfig)
    (playlist : PlaylistDefinition) (catalog : Catalog) (ec : Option Nat)
    (ch : Nat → Nat) (tg : Nat → Rat)
    (h : resultIsOk
        (generatePlaylist config playlist catalog ec false ch tg).result
        = false) :
    (generatePlaylist config playlist catalog ec false ch tg).playlist
        = playlist ∧
    ((generatePlaylist config playlist catalog ec false ch tg).playlist.shows.map
        (fun ps => (ps.name, ps.current_season, ps.current_episode)) =
      playlist.shows.map
        (fun ps => (ps.name, ps.current_season, ps.current_episode))) := by
  have hp := generatePlaylist_error_playlist config playlist catalog ec ch tg h
  exact ⟨hp, by rw [hp]⟩

/-- C9 witness: a failing run (its only show, at cursor (3,7), is
absent from the global pool) returns the playlist untouched. -/
theorem C9_cursor_atomicity_witness :
    (generatePlaylist cfgAll (mkPlaylist [⟨"X", 3, 7⟩] breaksOff) catAll none
        false (fun _ => 0) (fun _ => 30)).playlist
      = mkPlaylist [⟨"X", 3, 7⟩] breaksOff ∧
    ((generatePlaylist cfgAll (mkPlaylist [⟨"X", 3, 7⟩] breaksOff) catAll none
        false (fun _ => 0) (fun _ => 30)).playlist.shows.map
        (fun ps => (ps.name, ps.current_season, ps.current_episode)) =
      (mkPlaylist [⟨"X", 3, 7⟩] breaksOff).shows.map
        (fun ps => (ps.name, ps.current_season, ps.current_episode))) :=
  C9_cursor_atomicity cfgAll (mkPlaylist [⟨"X", 3, 7⟩] breaksOff) catAll none
    (fun _ => 0) (fun _ => 30)
    ((generatePlaylist_error_iff cfgAll (mkPlaylist [⟨"X", 3, 7⟩] breaksOff)
        catAll none false (fun _ => 0) (fun _ => 30)).mpr
      (Or.inr (by
        intro ps hps
        simp only [mkPlaylist, List.mem_singleton] at hps
        subst hps
        with_unfolding_all decide)))

/-- C10 counterexample: an iteration of the block loop need not add at
least 30 seconds — a clip with a known 5-second duration adds exactly
5: the block built from a one-clip pool of it totals 5, below 30. -/
theorem C10_block_loop_cex :
    adjustedDuration clip5 = 5 ∧
    (buildCommercialBlockForPlaylist [clip5] (breaksSingle 2) ccfgBasic 3
        (fun _ => 0) 0).1 = ([clip5], 5) ∧
    ¬ ((30 : Rat) ≤ 5) := by
  refine ⟨?_, ?_, by norm_num⟩
  · with_unfolding_all decide
  · with_unfolding_all rfl

/-- C10 (amended): for every non-empty pool the block-building loop
terminates by reaching the drawn target, and the pool-empty exit is
unreachable: the fuelled run satisfies the `while` loop's one-step
unfolding equation, each iteration adds a strictly positive adjusted
duration (the clip's own duration when positive, otherwise the
30-second fallback — in any case at least 1/1000 s), and both builders
return a total of at least the target — hence at least
`block_duration.min` whenever the target is — and a non-empty block,
even when no clip has a known positive duration. -/
theorem C10_block_loop_terminates :
    (∀ (clips : List MediaItem) (weights : List Rat) (target : Rat)
      (choice : Nat → Nat) (k : Nat) (block : List MediaItem) (dur : Rat),
      blockLoopRun clips weights target choice k block dur =
        if dur < target ∧ clips ≠ [] then
          blockLoopRun clips weights target choice (k + 1)
            (block ++ [clips.getD (choice k % clips.length) ⟨none, ""⟩])
            (dur + adjustedDuration
              (clips.getD (choice k % clips.length) ⟨none, ""⟩))
        else (block, dur, k)) ∧
    (∀ m : MediaItem, 0 < adjustedDuration m ∧
      (1 : Rat) / 1000 ≤ adjustedDuration m ∧
      (getDurationSecs m.duration ≤ 0 → adjustedDuration m = 30) ∧
      (¬ getDurationSecs m.duration ≤ 0 →
        adjustedDuration m = getDurationSecs m.duration)) ∧
    (∀ (pool : List MediaItem) (bcfg : BreakConfig) (ccfg : CommercialConfig)
      (target : Rat) (choice : Nat → Nat) (k : Nat), pool ≠ [] →
      target ≤
        (buildCommercialBlockForPlaylist pool bcfg ccfg target choice k).1.2) ∧
    (∀ (pool : List MediaItem) (ccfg : CommercialConfig) (target : Rat)
      (choice : Nat → Nat) (k : Nat), pool ≠ [] →
      target ≤ (buildCommercialBlock pool ccfg target choice k).1.2) ∧
    (∀ (pool : List MediaItem) (bcfg : BreakConfig) (ccfg : CommercialConfig)
      (target : Rat) (choice : Nat → Nat) (k : Nat), pool ≠ [] →
      (bcfg.block_duration.min : Rat) ≤ target →
      (bcfg.block_duration.min : Rat) ≤
        (buildCommercialBlockForPlaylist pool bcfg ccfg target choice k).1.2) ∧
    (∀ (pool : List MediaItem) (bcfg : BreakConfig) (ccfg : CommercialConfig)
      (target : Rat) (choice : Nat → Nat) (k : Nat), pool ≠ [] → 0 < target →
      (buildCommercialBlockForPlaylist pool bcfg ccfg target choice k).1.1
        ≠ []) := by
  refine ⟨blockLoopRun_eq, ?_, buildForPlaylist_total_ge, buildBlock_total_ge,
    ?_, buildForPlaylist_nonempty⟩
  · intro m
    exact ⟨adjustedDuration_pos m, adjustedDuration_ge_milli m,
      adjustedDuration_default m, adjustedDuration_own m⟩
  · intro pool bcfg ccfg target choice k hne htgt
    exact le_trans htgt (buildForPlaylist_total_ge pool bcfg ccfg target
      choice k hne)

/-- C10 witness: a 5-second one-clip pool with a drawn target of 3
reaches the target and returns a non-empty block. -/
theorem C10_block_loop_terminates_witness :
    (3 : Rat) ≤ (buildCommercialBlockForPlaylist [clip5] (breaksSingle 2)
        ccfgBasic 3 (fun _ => 0) 0).1.2 ∧
    (buildCommercialBlockForPlaylist [clip5] (breaksSingle 2) ccfgBasic 3
        (fun _ => 0) 0).1.1 ≠ [] :=
  ⟨C10_block_loop_terminates.2.2.1 [clip5] (breaksSingle 2) ccfgBasic 3
      (fun _ => 0) 0 (by decide),
    C10_block_loop_terminates.2.2.2.2.2 [clip5] (breaksSingle 2) ccfgBasic 3
      (fun _ => 0) 0 (by decide) (by norm_num)⟩

end RTV
